import Mathlib

/-!
Verification of the goplus/mod manifest / classfile-registry / dependency-map
subsystems against their natural-language specification.

Go strings are embedded as lists of characters (`GoString`); Go maps as
functions into `Option`; fallible Go functions as `Option`/`Except`; calls
into libraries outside this repository (strconv.Unquote, the GoVersionRE of
golang.org/x/mod, filepath.Abs, the module cache, the network fetcher) are
taken as explicit function parameters.
-/

/-- A Go string, embedded as its list of characters. -/
abbrev GoString := List Char

/-- Injects a Lean string literal as a `GoString`. -/
def goStr (s : String) : GoString := s.data

/-- Go `strings.HasPrefix(s, pre)`. -/
def goStartsWith (s pre : GoString) : Bool := pre.isPrefixOf s

/-- Go `strings.Contains(s, string(c))` for a one-character needle. -/
def goContainsChar (s : GoString) (c : Char) : Bool := s.contains c

/-- Go `strings.ContainsAny(s, chars)`. -/
def goContainsAny (s chars : GoString) : Bool := s.any (fun c => chars.contains c)

/-- Go `strings.Index(s, string(c))` for a one-character needle:
index of the first occurrence, or none (Go: -1). -/
def goIndexChar : GoString → Char → Option Nat
  | [], _ => none
  | c :: t, x =>
    if c = x then some 0 else
    match goIndexChar t x with
    | some n => some (n + 1)
    | none => none

/-- Go `strings.LastIndexByte(s, c)`: index of the last occurrence,
or none (Go: -1). -/
def goLastIndexChar : GoString → Char → Option Nat
  | [], _ => none
  | c :: t, x =>
    match goLastIndexChar t x with
    | some n => some (n + 1)
    | none => if c = x then some 0 else none

/-- Go `path.Ext(p)`: the suffix beginning at the final dot in the final
slash-separated element; empty if there is no dot.  Implemented by scanning
the reversed string, accumulating the would-be extension. -/
def pathExtRev : GoString → GoString → GoString
  | [], _ => []
  | c :: t, acc =>
    if c = '.' then c :: acc
    else if c = '/' then []
    else pathExtRev t (c :: acc)

/-- Go `path.Ext`. -/
def pathExt (s : GoString) : GoString := pathExtRev s.reverse []

/-- golang.org/x/mod module.Version: a module path plus a version string
(which is empty for a local-path replacement target). -/
structure GoModVersion where
  Path : GoString
  Version : GoString
  deriving DecidableEq, Repr

/-- Go byte-wise string comparison `s < t` (on UTF-8 strings this agrees
with code-point lexicographic order). -/
def goStrLt : GoString → GoString → Bool
  | [], [] => false
  | [], _ :: _ => true
  | _ :: _, [] => false
  | a :: s, b :: t =>
    if a < b then true else if b < a then false else goStrLt s t

namespace Modfile

/-- modfile.Runner (runner statement): a custom runner package path plus
optional version. -/
structure Runner where
  Path : GoString
  Version : GoString := []
  deriving DecidableEq, Repr

/-- modfile.Import (import statement): optional alias plus package path. -/
structure Import where
  Name : GoString := []
  Path : GoString
  deriving DecidableEq, Repr

/-- modfile.Class (work class statement). -/
structure Class where
  Ext : GoString
  FullExt : GoString := []
  Cls : GoString
  Proto : GoString := []
  Pfx : GoString := []
  Embedded : Bool := false
  deriving DecidableEq, Repr

/-- modfile.Project (project statement). -/
structure Project where
  Ext : GoString
  FullExt : GoString := []
  Cls : GoString
  Works : List Class
  PkgPaths : List GoString
  Imports : List Import := []
  Runner : Option Runner := none
  deriving DecidableEq, Repr

/-- modfile.SplitFname: splits fname into (className, classExt).
`classExt` is the OS extension, except that when the OS extension is
".gox" and the stem has a `_` at a positive index, the compound extension
starting at the last `_` is used instead. -/
def SplitFname (fname : GoString) : GoString × GoString :=
  let classExt := pathExt fname
  let className := fname.take (fname.length - classExt.length)
  if classExt = goStr ".gox" then
    match goLastIndexChar className '_' with
    | some n => if 0 < n then (fname.take n, fname.drop n) else (className, classExt)
    | none => (className, classExt)
  else (className, classExt)

/-- modfile.ClassExt: the classExt of a filename. -/
def ClassExt (fname : GoString) : GoString := (SplitFname fname).2

/-- Project.IsProj: the Go loop over `p.Works`.  The first work class whose
Ext equals `ext` decides: the file is a project file only when `ext` is the
project's own Ext and the filename is literally "main"+ext.  When no work
class shares the ext, every file with that ext is a project file. -/
def Project.IsProj (p : Project) (ext fname : GoString) : Bool :=
  go p.Works
where
  go : List Class → Bool
    | [] => true
    | w :: ws =>
      if w.Ext = ext then
        if ext ≠ p.Ext ∨ fname ≠ goStr "main" ++ ext then false else true
      else go ws

end Modfile

namespace Gopmod

open Modfile

/-- The ext → project map held by gopmod.Module.  A Go map is embedded as
an update sequence: assignment prepends, lookup takes the most recent
binding, so later writes shadow earlier ones exactly as in a Go map. -/
abbrev Registry := List (GoString × Project)

/-- The empty registry. -/
def Registry.empty : Registry := []

/-- Go map assignment `m[k] = v`. -/
def Registry.set (m : Registry) (k : GoString) (v : Project) : Registry :=
  (k, v) :: m

/-- Go map lookup `m[k]`: the most recent binding for k. -/
def Registry.find (m : Registry) (k : GoString) : Option Project :=
  (List.find? (fun b => b.1 = k) m).map (fun b => b.2)

/-- Module.ClassKind: derive the class ext of fname, look it up in the
registry; when bound, the IsProj check decides project-ness. -/
def ClassKind (projects : Registry) (fname : GoString) : Bool × Bool :=
  match Registry.find projects (ClassExt fname) with
  | some c => (c.IsProj (ClassExt fname) fname, true)
  | none => (false, false)

/-- Module.importClass: bind the project's own Ext, then every work Ext,
to the project (later writes overwrite earlier ones). -/
def importClass (m : Registry) (c : Project) : Registry :=
  c.Works.foldl (fun m w => m.set w.Ext c) (m.set c.Ext c)

end Gopmod

namespace ClaimC1

open Modfile Gopmod

/-- The built-in SpxProject of gopmod/classfile.go. -/
def SpxProject : Project :=
  { Ext := goStr ".spx"
    Cls := goStr "Game"
    Works := [{ Ext := goStr ".spx", Cls := goStr "Sprite" }]
    PkgPaths := [goStr "github.com/goplus/spx", goStr "math"] }

/-- The built-in TestProject of gopmod/classfile.go. -/
def TestProject : Project :=
  { Ext := goStr "_test.gox"
    Cls := goStr "App"
    Works := [{ Ext := goStr "_test.gox", Cls := goStr "Case" }]
    PkgPaths := [goStr "github.com/goplus/gop/test", goStr "testing"] }

/-- The registry produced by the built-in phase of Module.ImportClasses:
importClass TestProject, then importClass SpxProject, then the old-style
`.gmx` binding. -/
def builtinRegistry : Registry :=
  (importClass (importClass Registry.empty TestProject) SpxProject).set
    (goStr ".gmx") SpxProject

end ClaimC1

namespace ClaimC1

open Modfile Gopmod

/-- Characterization of the IsProj loop: it returns true iff, whenever some
work class of the project has the given ext, the ext is the project's own
Ext and the filename is literally "main"+ext. -/
theorem isProj_go_iff (p : Project) (ext fname : GoString) (ws : List Modfile.Class) :
    Project.IsProj.go p ext fname ws = true ↔
      ((∃ w ∈ ws, w.Ext = ext) → (ext = p.Ext ∧ fname = goStr "main" ++ ext)) := by
  induction ws with
  | nil => simp [Project.IsProj.go]
  | cons w ws ih =>
    by_cases hw : w.Ext = ext
    · simp only [Project.IsProj.go, hw, if_pos rfl]
      by_cases h1 : ext = p.Ext
      · by_cases h2 : fname = goStr "main" ++ ext
        · simp [h1, h2, hw]
        · simp only [if_pos (Or.inr h2)]
          constructor
          · intro h; cases h
          · intro h
            have := h ⟨w, List.mem_cons_self w ws, hw⟩
            exact absurd this.2 h2
      · simp only [if_pos (Or.inl h1)]
        constructor
        · intro h; cases h
        · intro h
          have := h ⟨w, List.mem_cons_self w ws, hw⟩
          exact absurd this.1 h1
    · simp only [Project.IsProj.go, if_neg hw]
      rw [ih]
      constructor
      · intro h hex
        rcases hex with ⟨w', hw', he⟩
        rcases List.mem_cons.1 hw' with rfl | hmem
        · exact absurd he hw
        · exact h ⟨w', hmem, he⟩
      · intro h hex
        rcases hex with ⟨w', hw', he⟩
        exact h ⟨w', List.mem_cons_of_mem _ hw', he⟩

end ClaimC1

namespace ClaimC1

open Modfile Gopmod

/-- C1 counterexample: in the registry produced by the built-in phase of
Module.ImportClasses, the old-style binding maps ".gmx" to SpxProject, whose
work classes do not include ".gmx"; ClassKind then reports
isProj = true, found = true for "foo.gmx" even though ".gmx" is not
SpxProject's own Ext and "foo.gmx" is not "main" + ext.  This refutes the
claim that isProject can be true only for a file literally named main‹ext›
whose ext equals the bound Project's own Ext. -/
theorem classKind_counterexample :
    ClassKind builtinRegistry (goStr "foo.gmx") = (true, true) ∧
    Registry.find builtinRegistry (ClassExt (goStr "foo.gmx")) = some SpxProject ∧
    ClassExt (goStr "foo.gmx") ≠ SpxProject.Ext ∧
    goStr "foo.gmx" ≠ goStr "main" ++ ClassExt (goStr "foo.gmx") := by
  refine ⟨by decide, by decide, by decide, by decide⟩

/-- C1 (amended): for every registry and filename, when the class extension
derived from fname is bound to a Project c, ClassKind returns found = true
and isProj = IsProj, and isProj is true iff: whenever some work class of c
shares that extension, the extension equals c's own Ext and the filename is
literally "main"+ext (so when no work class shares the extension, every file
with that extension counts as a project file). -/
theorem classKind_characterization (reg : Registry) (fname : GoString)
    (c : Project) (h : Registry.find reg (ClassExt fname) = some c) :
    ClassKind reg fname = (c.IsProj (ClassExt fname) fname, true) ∧
    ((ClassKind reg fname).1 = true ↔
      ((∃ w ∈ c.Works, w.Ext = ClassExt fname) →
        (ClassExt fname = c.Ext ∧ fname = goStr "main" ++ ClassExt fname))) := by
  have h1 : ClassKind reg fname = (c.IsProj (ClassExt fname) fname, true) := by
    unfold ClassKind
    rw [h]
  refine ⟨h1, ?_⟩
  rw [h1]
  exact isProj_go_iff c (ClassExt fname) fname c.Works

/-- Witness for the amended C1 at a concrete input: the built-in registry
binds ".spx" to SpxProject, which has a work class with Ext ".spx". -/
theorem classKind_characterization_witness :
    ClassKind builtinRegistry (goStr "main.spx") =
      (SpxProject.IsProj (ClassExt (goStr "main.spx")) (goStr "main.spx"), true) ∧
    ((ClassKind builtinRegistry (goStr "main.spx")).1 = true ↔
      ((∃ w ∈ SpxProject.Works, w.Ext = ClassExt (goStr "main.spx")) →
        (ClassExt (goStr "main.spx") = SpxProject.Ext ∧
          goStr "main.spx" = goStr "main" ++ ClassExt (goStr "main.spx")))) :=
  classKind_characterization builtinRegistry (goStr "main.spx") SpxProject (by decide)

end ClaimC1

namespace Gopmod

/-- gopmod.depmodInfo: a dependency module path together with its resolved
("real") module version. -/
structure DepmodInfo where
  path : GoString
  real : GoModVersion
  deriving DecidableEq, Repr

/-- gopmod.isPkgInMod: pkgPath is modPath itself or a package under it
(the prefix must end at a '/' boundary). -/
def isPkgInMod (pkgPath modPath : GoString) : Bool :=
  if goStartsWith pkgPath modPath then
    match pkgPath.drop modPath.length with
    | [] => true
    | c :: _ => c = '/'
  else false

/-- The comparison used by gopmod.getDepMods, as a non-strict relation:
a precedes b when a.path is not byte-wise less than b.path (descending). -/
def depGE (a b : DepmodInfo) : Prop := goStrLt a.path b.path = false

instance : DecidableRel depGE := fun a b => by unfold depGE; infer_instance

/-- gopmod.getDepMods: the entries of modload DepMods, sorted by module
path in descending byte order (the Go code sorts with
`ret[i].path > ret[j].path`; the enumeration order of the underlying Go map
is immaterial once the keys are distinct). -/
def getDepMods (entries : List DepmodInfo) : List DepmodInfo :=
  entries.insertionSort depGE

/-- The selection loop of Module.lookupExternPkg: the first dependency
entry (in getDepMods order) whose path owns pkgPath. -/
def lookupDep (depmods : List DepmodInfo) (pkgPath : GoString) : Option DepmodInfo :=
  depmods.find? (fun m => isPkgInMod pkgPath m.path)

/-- gopmod package-type constants (Go: a PkgType int; PkgtInvalid is -1). -/
def PkgtStandard : Int := 0

/-- A package in this module (in standard form). -/
def PkgtModule : Int := 1

/-- A package in this module (in relative path form). -/
def PkgtLocal : Int := 2

/-- An external package. -/
def PkgtExtern : Int := 3

/-- An invalid package. -/
def PkgtInvalid : Int := -1

/-- gopmod.Package. -/
structure Package where
  PType : Int
  Dir : GoString := []
  ModDir : GoString := []
  ModPath : GoString := []
  Real : GoModVersion := ⟨[], []⟩
  deriving DecidableEq, Repr

/-- Errors that Module.lookupExternPkg can return as values. -/
inductive LookupErr where
  | missing (path : GoString)
  | cacheErr (e : GoString)
  deriving DecidableEq, Repr

/-- Module.lookupExternPkg: pick the owning dependency module with the
selection loop, then resolve its directory through the module cache
(modcache.Path, an external collaborator, passed as `mcPath`). -/
def lookupExternPkg (mcPath : GoModVersion → Except GoString GoString)
    (depmods : List DepmodInfo) (pkgPath : GoString) : Except LookupErr Package :=
  match lookupDep depmods pkgPath with
  | some m =>
    match mcPath m.real with
    | .ok modDir =>
      .ok { PType := PkgtExtern, Real := m.real, ModPath := m.path,
            ModDir := modDir, Dir := modDir ++ pkgPath.drop m.path.length }
    | .error e => .error (.cacheErr e)
  | none => .error (.missing pkgPath)

end Gopmod

namespace ClaimC2

open Gopmod

/-- If r is nonempty, s is byte-wise less than s ++ r. -/
theorem goStrLt_append (s r : GoString) (hr : r ≠ []) : goStrLt s (s ++ r) = true := by
  induction s with
  | nil =>
    cases r with
    | nil => exact absurd rfl hr
    | cons c t => simp [goStrLt]
  | cons a s ih => simp [goStrLt, ih]

/-- goStrLt is asymmetric. -/
theorem goStrLt_asymm : ∀ s t : GoString, goStrLt s t = true → goStrLt t s = false
  | [], t => by cases t <;> simp [goStrLt]
  | _ :: _, [] => by simp [goStrLt]
  | a :: s, b :: t => by
    simp only [goStrLt]
    intro h
    by_cases hab : a < b
    · have : ¬ b < a := lt_asymm hab
      simp [this, hab]
    · by_cases hba : b < a
      · simp [hab, hba] at h
      · simp only [if_neg hab, if_neg hba] at h
        simp [hab, hba, goStrLt_asymm s t h]

/-- Two strings neither of which is byte-wise less than the other are equal. -/
theorem goStrLt_antisymm : ∀ s t : GoString,
    goStrLt s t = false → goStrLt t s = false → s = t
  | [], [] => by intro _ _; rfl
  | [], _ :: _ => by simp [goStrLt]
  | _ :: _, [] => by simp [goStrLt]
  | a :: s, b :: t => by
    simp only [goStrLt]
    intro h1 h2
    by_cases hab : a < b
    · simp [hab] at h1
    · by_cases hba : b < a
      · simp [hba, hab] at h2
      · have hab' : a = b := le_antisymm (not_lt.1 hba) (not_lt.1 hab)
        simp only [if_neg hab, if_neg hba] at h1
        simp only [if_neg hba, if_neg hab] at h2
        rw [hab', goStrLt_antisymm s t h1 h2]

/-- goStrLt is transitive. -/
theorem goStrLt_trans : ∀ s t u : GoString,
    goStrLt s t = true → goStrLt t u = true → goStrLt s u = true
  | [], t, [] => by cases t <;> simp [goStrLt]
  | [], _, _ :: _ => by simp [goStrLt]
  | _ :: _, [], _ => by simp [goStrLt]
  | _ :: _, _ :: _, [] => by simp [goStrLt]
  | a :: s, b :: t, c :: u => by
    simp only [goStrLt]
    intro h1 h2
    by_cases hab : a < b
    · by_cases hbc : b < c
      · simp [lt_trans hab hbc]
      · by_cases hcb : c < b
        · simp [hcb] at h2
          exact absurd h2 hbc
        · have : b = c := le_antisymm (not_lt.1 hcb) (not_lt.1 hbc)
          subst this
          simp [hab]
    · by_cases hba : b < a
      · simp [hab, hba] at h1
      · have hab' : a = b := le_antisymm (not_lt.1 hba) (not_lt.1 hab)
        subst hab'
        simp only [if_neg hab, if_neg hba] at h1
        by_cases hac : a < c
        · simp [hac]
        · by_cases hca : c < a
          · simp [hac, hca] at h2
          · simp only [if_neg hac, if_neg hca] at h2 ⊢
            exact goStrLt_trans s t u h1 h2

/-- A proper prefix is byte-wise smaller. -/
theorem goStrLt_of_proper_isPrefix (p q : GoString) (h : p <+: q) (hne : p ≠ q) :
    goStrLt p q = true := by
  rcases h with ⟨r, rfl⟩
  apply goStrLt_append
  intro hr
  exact hne (by simp [hr])

/-- isPkgInMod implies the module path is a prefix of the package path. -/
theorem isPrefix_of_isPkgInMod (pkgPath modPath : GoString)
    (h : isPkgInMod pkgPath modPath = true) : modPath <+: pkgPath := by
  unfold isPkgInMod at h
  by_cases hp : goStartsWith pkgPath modPath
  · exact List.isPrefixOf_iff_prefix.1 hp
  · simp [hp] at h

end ClaimC2

namespace ClaimC2

open Gopmod

instance : IsTotal DepmodInfo depGE := by
  constructor
  intro a b
  unfold depGE
  by_cases h : goStrLt a.path b.path = true
  · exact Or.inr (goStrLt_asymm _ _ h)
  · exact Or.inl (Bool.not_eq_true _ ▸ h)

instance : IsTrans DepmodInfo depGE := by
  constructor
  intro a b c hab hbc
  unfold depGE at hab hbc ⊢
  by_cases hac : goStrLt a.path c.path = true
  · by_cases hcb : goStrLt c.path b.path = true
    · exact absurd (goStrLt_trans _ _ _ hac hcb) (by simp [hab])
    · have hcb' : goStrLt c.path b.path = false := by
        cases h : goStrLt c.path b.path
        · rfl
        · exact absurd h hcb
      have : b.path = c.path := goStrLt_antisymm _ _ hbc hcb'
      rw [this] at hab
      exact absurd hac (by simp [hab])
  · cases h : goStrLt a.path c.path
    · rfl
    · exact absurd h hac

/-- getDepMods yields a strictly descending list when the entry paths are
pairwise distinct (as they are, coming from the keys of a Go map). -/
theorem getDepMods_pairwise (entries : List DepmodInfo)
    (hnd : entries.Pairwise (fun a b => a.path ≠ b.path)) :
    (getDepMods entries).Pairwise (fun a b => goStrLt b.path a.path = true) := by
  have hsort : (getDepMods entries).Pairwise depGE :=
    List.sorted_insertionSort depGE entries
  have hperm : List.Perm (getDepMods entries) entries :=
    List.perm_insertionSort depGE entries
  have hnd' : (getDepMods entries).Pairwise (fun a b => a.path ≠ b.path) :=
    (hperm.pairwise_iff (fun {a b} h => Ne.symm h)).2 hnd
  refine (hsort.and hnd').imp ?_
  rintro a b ⟨hge, hne⟩
  cases h : goStrLt b.path a.path
  · exact absurd (goStrLt_antisymm _ _ hge h) hne
  · rfl

/-- In a strictly descending depmod list, the first matching entry carries
the longest matching module path: any other matching entry's path is no
longer. -/
theorem find?_longest (s : GoString) :
    ∀ (l : List DepmodInfo),
      l.Pairwise (fun a b => goStrLt b.path a.path = true) →
      ∀ m, lookupDep l s = some m →
        ∀ d ∈ l, isPkgInMod s d.path = true → d.path.length ≤ m.path.length := by
  intro l
  induction l with
  | nil => intro _ m hm; simp [lookupDep] at hm
  | cons a t ih =>
    intro hpw m hm d hd hmatch
    rw [List.pairwise_cons] at hpw
    by_cases ha : isPkgInMod s a.path = true
    · have hm' : some a = some m := by
        have : lookupDep (a :: t) s = some a := by
          simp [lookupDep, List.find?_cons, ha]
        exact this.symm.trans hm
      injection hm' with hma
      subst hma
      rcases List.mem_cons.1 hd with rfl | hdt
      · exact le_refl _
      · have hlt : goStrLt d.path a.path = true := hpw.1 d hdt
        have hdp : d.path <+: s := isPrefix_of_isPkgInMod _ _ hmatch
        have hmp : a.path <+: s := isPrefix_of_isPkgInMod _ _ ha
        rcases List.prefix_or_prefix_of_prefix hdp hmp with hpre | hpre
        · exact hpre.length_le
        · by_cases heq : a.path = d.path
          · exact le_of_eq (congrArg List.length heq.symm)
          · have : goStrLt a.path d.path = true :=
              goStrLt_of_proper_isPrefix _ _ hpre heq
            exact absurd hlt (by simp [goStrLt_asymm _ _ this])
    · have ha' : isPkgInMod s a.path = false := by
        cases h : isPkgInMod s a.path
        · rfl
        · exact absurd h ha
      have hm' : lookupDep t s = some m := by
        have : lookupDep (a :: t) s = lookupDep t s := by
          simp [lookupDep, List.find?_cons, ha']
        exact this.symm.trans hm
      rcases List.mem_cons.1 hd with rfl | hdt
      · exact absurd hmatch ha
      · exact ih hpw.2 m hm' d hdt hmatch

end ClaimC2

namespace ClaimC2

open Gopmod

/-- C2: when resolving an external import path against the descending-sorted
dependency list (getDepMods over distinct module paths), the selection loop
of lookupExternPkg picks a dependency entry that owns the import path at a
'/' boundary and whose module path is the longest among all owning entries;
and whenever some entry owns the path, the loop finds one. -/
theorem lookupDep_longest_prefix (entries : List DepmodInfo) (pkgPath : GoString)
    (hnd : entries.Pairwise (fun a b => a.path ≠ b.path)) :
    (∀ m, lookupDep (getDepMods entries) pkgPath = some m →
        m ∈ entries ∧ isPkgInMod pkgPath m.path = true ∧
        ∀ d ∈ entries, isPkgInMod pkgPath d.path = true →
          d.path.length ≤ m.path.length) ∧
    ((∃ d ∈ entries, isPkgInMod pkgPath d.path = true) →
      (lookupDep (getDepMods entries) pkgPath).isSome = true) := by
  have hperm : List.Perm (getDepMods entries) entries :=
    List.perm_insertionSort depGE entries
  constructor
  · intro m hm
    refine ⟨?_, ?_, ?_⟩
    · exact hperm.mem_iff.1 (List.mem_of_find?_eq_some hm)
    · simpa using List.find?_some hm
    · intro d hd hmatchd
      exact find?_longest pkgPath (getDepMods entries) (getDepMods_pairwise entries hnd)
        m hm d (hperm.mem_iff.2 hd) hmatchd
  · rintro ⟨d, hd, hmatch⟩
    rw [lookupDep, List.find?_isSome]
    exact ⟨d, hperm.mem_iff.2 hd, by simpa using hmatch⟩

/-- Concrete dependency list for the C2 witness: a nested module path
"github.com/a/b" next to its parent-looking "github.com/a". -/
def depsAB : List DepmodInfo :=
  [⟨goStr "github.com/a", ⟨goStr "github.com/a", goStr "v1.0.0"⟩⟩,
   ⟨goStr "github.com/a/b", ⟨goStr "github.com/a/b", goStr "v1.2.0"⟩⟩]

/-- Witness for C2 at a concrete input: both dependency paths own
"github.com/a/b/c"; the nested one must win. -/
theorem lookupDep_longest_prefix_witness :
    (∀ m, lookupDep (getDepMods depsAB) (goStr "github.com/a/b/c") = some m →
        m ∈ depsAB ∧ isPkgInMod (goStr "github.com/a/b/c") m.path = true ∧
        ∀ d ∈ depsAB, isPkgInMod (goStr "github.com/a/b/c") d.path = true →
          d.path.length ≤ m.path.length) ∧
    ((∃ d ∈ depsAB, isPkgInMod (goStr "github.com/a/b/c") d.path = true) →
      (lookupDep (getDepMods depsAB) (goStr "github.com/a/b/c")).isSome = true) :=
  lookupDep_longest_prefix depsAB (goStr "github.com/a/b/c") (by decide)

end ClaimC2

namespace Modload

/-- A go.mod replace statement: old module → new target (gomodfile.Replace). -/
structure GoReplace where
  Old : GoModVersion
  New : GoModVersion
  deriving DecidableEq, Repr

/-- The path → resolved-version map built by Module.DepMods (a Go map,
embedded as a function into Option). -/
def VerMap := GoString → Option GoModVersion

/-- The empty version map. -/
def VerMap.empty : VerMap := fun _ => none

/-- Go map assignment `vers[k] = v`. -/
def VerMap.set (m : VerMap) (k : GoString) (v : GoModVersion) : VerMap :=
  fun k' => if k' = k then some v else m k'

/-- The directory part of Go `filepath.Split(path)`: everything up to and
including the final separator. -/
def splitDirPart (path : GoString) : GoString :=
  match goLastIndexChar path '/' with
  | some n => path.take (n + 1)
  | none => []

/-- The fields of modload.Module consumed by DepMods. -/
structure LModule where
  modfileName : GoString
  requires : List GoModVersion
  replaces : List GoReplace

/-- The require loop of Module.DepMods: seed the map from every require
entry with a nonempty path. -/
def requireStep (vers : VerMap) (r : GoModVersion) : VerMap :=
  if r.Path ≠ [] then vers.set r.Path r else vers

/-- The replace loop body of Module.DepMods: overwrite the entry for the
old path with the target; a target without a version is a local path — if
it starts with ".", it is first made relative to the manifest's directory,
and then canonicalized with filepath.Abs (`abs`, an external collaborator
that may fail, in which case the path is kept as-is). -/
def replaceStep (abs : GoString → Option GoString) (modf : GoString)
    (vers : VerMap) (r : GoReplace) : VerMap :=
  if r.Old.Path ≠ [] then
    let real :=
      if r.New.Version = [] then
        let p1 :=
          if goStartsWith r.New.Path (goStr ".") then
            splitDirPart modf ++ r.New.Path
          else r.New.Path
        { Path := (abs p1).getD p1, Version := ([] : GoString) }
      else r.New
    vers.set r.Old.Path real
  else vers

/-- Module.DepMods: requires first, then replaces. -/
def DepMods (abs : GoString → Option GoString) (m : LModule) : VerMap :=
  m.replaces.foldl (replaceStep abs m.modfileName)
    (m.requires.foldl requireStep VerMap.empty)

end Modload

namespace ClaimC3

open Modload

/-- Folding the replace loop over entries none of which have old path k
leaves the entry at k unchanged. -/
theorem foldl_replaceStep_untouched (abs : GoString → Option GoString)
    (modf : GoString) (k : GoString) :
    ∀ (l : List GoReplace) (v : VerMap),
      (∀ r' ∈ l, r'.Old.Path ≠ k) →
      (l.foldl (replaceStep abs modf) v) k = v k := by
  intro l
  induction l with
  | nil => intro v _; rfl
  | cons a t ih =>
    intro v hne
    rw [List.foldl_cons]
    rw [ih _ (fun r' hr' => hne r' (List.mem_cons_of_mem _ hr'))]
    unfold replaceStep
    by_cases ho : a.Old.Path ≠ []
    · rw [if_pos ho]
      unfold VerMap.set
      rw [if_neg (hne a (List.mem_cons_self a t)).symm]
    · rw [if_neg ho]

/-- C3: in the map built by DepMods, the entry for the old path of the last
replace statement naming it is exactly that replace's target — independent
of every require statement and of earlier replaces for the same key — and a
version-less target starting with "." is resolved against the manifest's
directory and canonicalized with filepath.Abs. -/
theorem DepMods_replace_wins (abs : GoString → Option GoString) (m : LModule)
    (r : GoReplace) (l1 l2 : List GoReplace)
    (hsplit : m.replaces = l1 ++ r :: l2)
    (hold : r.Old.Path ≠ [])
    (hlast : ∀ r' ∈ l2, r'.Old.Path ≠ r.Old.Path) :
    DepMods abs m r.Old.Path =
      some (if r.New.Version = [] then
              { Path :=
                  (abs (if goStartsWith r.New.Path (goStr ".")
                        then splitDirPart m.modfileName ++ r.New.Path
                        else r.New.Path)).getD
                    (if goStartsWith r.New.Path (goStr ".")
                     then splitDirPart m.modfileName ++ r.New.Path
                     else r.New.Path),
                Version := ([] : GoString) }
            else r.New) := by
  unfold DepMods
  rw [hsplit, List.foldl_append, List.foldl_cons]
  rw [foldl_replaceStep_untouched abs m.modfileName r.Old.Path l2 _ hlast]
  unfold replaceStep
  rw [if_pos hold]
  unfold VerMap.set
  rw [if_pos rfl]

/-- Concrete module for the C3 witness: the spec's own precedence example —
`require github.com/a v1.0.0` plus `replace github.com/a v1.0.0 => ../local`
in a manifest at /work/demo/go.mod. -/
def demoModule : LModule :=
  { modfileName := goStr "/work/demo/go.mod"
    requires := [⟨goStr "github.com/a", goStr "v1.0.0"⟩]
    replaces := [⟨⟨goStr "github.com/a", goStr "v1.0.0"⟩,
                 ⟨goStr "../local", []⟩⟩] }

/-- Witness for C3 at a concrete input (with filepath.Abs instantiated as
the identity canonicalizer): github.com/a resolves to the local directory
path derived from the manifest's directory, not to v1.0.0. -/
theorem DepMods_replace_wins_witness :
    DepMods some demoModule (goStr "github.com/a") =
      some { Path := goStr "/work/demo/../local", Version := ([] : GoString) } := by
  have h := DepMods_replace_wins some demoModule
    ⟨⟨goStr "github.com/a", goStr "v1.0.0"⟩, ⟨goStr "../local", []⟩⟩
    [] [] (by decide) (by decide) (by decide)
  rw [h]
  decide

end ClaimC3

namespace Modfile

/-- The double-quote character. -/
def dquoteChar : Char := Char.ofNat 34

/-- The single-quote character. -/
def squoteChar : Char := Char.ofNat 39

/-- The backquote character. -/
def bquoteChar : Char := Char.ofNat 96

/-- An ASCII upper-case letter (the regexp character class [A-Z]). -/
def isUpperAZ (c : Char) : Bool := 'A' ≤ c && c ≤ 'Z'

/-- A word character (the regexp character class \w = [0-9A-Za-z_]). -/
def isWordChar (c : Char) : Bool :=
  ('0' ≤ c && c ≤ '9') || ('A' ≤ c && c ≤ 'Z') || ('a' ≤ c && c ≤ 'z') || c = '_'

/-- modfile.parseString: a token starting with a double quote is unquoted
with strconv.Unquote (`unquote`, an external collaborator); an unquoted
token containing a double quote, single quote or backquote is rejected;
any other token stands for itself.  (The AutoQuote write-back into the
token slice only affects re-serialization, not the returned value.) -/
def parseString (unquote : GoString → Option GoString) (t : GoString) :
    Option GoString :=
  if goStartsWith t [dquoteChar] then unquote t
  else if goContainsAny t [dquoteChar, squoteChar, bquoteChar] then none
  else some t

/-- A match of the regexp starting at the head of the string: an optional
asterisk followed by an upper-case letter (the trailing word characters
may be absent). -/
def symbolMatchAtHead : GoString → Bool
  | [] => false
  | c :: cs =>
    if c = '*' then
      match cs with
      | d :: _ => isUpperAZ d
      | [] => false
    else isUpperAZ c

/-- Go symbolRE.MatchString(t) for the source pattern (an optional
asterisk, one upper-case letter, then word characters): the regexp is
UNANCHORED, so MatchString reports whether a match starts at any position
of the string. -/
def symbolREMatchString : GoString → Bool
  | [] => false
  | c :: cs => symbolMatchAtHead (c :: cs) || symbolREMatchString cs

/-- modfile.parseSymbol: unquote the token with parseString, then require
symbolRE to match; both failure modes return an InvalidSymbolError (here:
none). -/
def parseSymbol (unquote : GoString → Option GoString) (s : GoString) :
    Option GoString :=
  match parseString unquote s with
  | some t => if symbolREMatchString t then some t else none
  | none => none

end Modfile

namespace ClaimC4

open Modfile

/-- The spec's anchored exported-identifier pattern, written from the
spec's words for comparison with the code's check: the whole token must be
an optional asterisk, an upper-case letter, then word characters only. -/
def specAnchoredSymbolPattern : GoString → Bool
  | [] => false
  | c :: cs =>
    if c = '*' then tailPart cs
    else isUpperAZ c && cs.all isWordChar
where
  tailPart : GoString → Bool
    | [] => false
    | c :: cs => isUpperAZ c && cs.all isWordChar

/-- A head match implies the head is upper-case or some later character is. -/
theorem symbolMatchAtHead_true (c : Char) (cs : GoString)
    (h : symbolMatchAtHead (c :: cs) = true) :
    isUpperAZ c = true ∨ cs.any isUpperAZ = true := by
  simp only [symbolMatchAtHead] at h
  by_cases hstar : c = '*'
  · subst hstar
    rw [if_pos rfl] at h
    cases cs with
    | nil => cases h
    | cons d ds =>
      right
      have h' : isUpperAZ d = true := h
      rw [List.any_cons, h', Bool.true_or]
  · rw [if_neg hstar] at h
    exact Or.inl h

/-- A head non-match implies the head is not upper-case. -/
theorem symbolMatchAtHead_false (c : Char) (cs : GoString)
    (h : symbolMatchAtHead (c :: cs) = false) : isUpperAZ c = false := by
  simp only [symbolMatchAtHead] at h
  by_cases hstar : c = '*'
  · subst hstar; decide
  · rw [if_neg hstar] at h
    exact h

/-- The unanchored match succeeds exactly when the string contains an
ASCII upper-case letter. -/
theorem symbolREMatchString_iff_any_upper (t : GoString) :
    symbolREMatchString t = t.any isUpperAZ := by
  induction t with
  | nil => rfl
  | cons c cs ih =>
    rw [symbolREMatchString, ih, List.any_cons]
    cases hm : symbolMatchAtHead (c :: cs)
    · rw [Bool.false_or, symbolMatchAtHead_false c cs hm, Bool.false_or]
    · rw [Bool.true_or]
      rcases symbolMatchAtHead_true c cs hm with h | h
      · rw [h, Bool.true_or]
      · rw [h, Bool.or_true]

end ClaimC4

namespace ClaimC4

open Modfile

/-- C4 counterexample: the token "aB" does not match the spec's anchored
exported-identifier pattern (it starts with a lower-case letter), yet
parseSymbol accepts it, because the source regexp is unanchored and "aB"
contains an upper-case letter.  (The unquote collaborator is irrelevant
here since the token carries no quotes.) -/
theorem parseSymbol_counterexample :
    parseSymbol (fun _ => none) (goStr "aB") = some (goStr "aB") ∧
    specAnchoredSymbolPattern (goStr "aB") = false := by
  refine ⟨by decide, by decide⟩

/-- C4 (amended): for every unquote collaborator and token, parseSymbol
accepts the token iff parseString accepts it and its unquoted form contains
an ASCII upper-case letter anywhere (the unanchored regexp), in which case
the unquoted form is returned; the anchored pattern of the spec is not
what the code checks. -/
theorem parseSymbol_accepts_contains_upper
    (unquote : GoString → Option GoString) (s : GoString) :
    parseSymbol unquote s =
      match parseString unquote s with
      | some t => if t.any isUpperAZ then some t else none
      | none => none := by
  unfold parseSymbol
  cases h : parseString unquote s with
  | none => rfl
  | some t =>
    simp only [symbolREMatchString_iff_any_upper]

end ClaimC4

namespace Gopmod

open Modfile

/-- Errors surfaced while importing classfiles: syscall.ENOENT,
ErrNotClassFileMod, any other error from modcache.Path / modload.Load, or
a modfetch.Get failure. -/
inductive ImportErr where
  | enoent
  | notClassFileMod
  | loadErr (n : Nat)
  | fetchErr (n : Nat)
  deriving DecidableEq, Repr

/-- The external collaborators of the classfile import path:
`loadFrom` is modcache.Path followed by modload.Load followed by
Projects() (returning the projects declared by the dependency module's
manifest); `fetch` is modfetch.Get. -/
structure ClassfileEnv where
  loadFrom : GoModVersion → Except ImportErr (List Project)
  fetch : GoModVersion → Except ImportErr GoModVersion

/-- Module.LookupDepMod: linear scan of the dependency list for an exact
module path match. -/
def LookupDepMod (depmods : List DepmodInfo) (modPath : GoString) :
    Option GoModVersion :=
  (depmods.find? (fun m => m.path = modPath)).map (fun m => m.real)

/-- The fields of gopmod.Module consumed by ImportClasses. -/
structure GModule where
  optProjects : List Project
  classMods : List GoString
  depmods : List DepmodInfo

/-- Module.importClassFrom: load the dependency module's manifest; a module
declaring zero projects is ErrNotClassFileMod; otherwise register every
declared project. -/
def importClassFrom (env : ClassfileEnv) (st : Registry) (modVer : GoModVersion) :
    Except ImportErr Registry :=
  match env.loadFrom modVer with
  | .error e => .error e
  | .ok projs =>
    if projs.length = 0 then .error .notClassFileMod
    else .ok (projs.foldl importClass st)

/-- Module.importMod: resolve the declared classfile-module path among the
dependencies (ENOENT when absent), try the cache, and on ENOENT only, fetch
and retry once. -/
def importMod (env : ClassfileEnv) (depmods : List DepmodInfo) (st : Registry)
    (modPath : GoString) : Except ImportErr Registry :=
  match LookupDepMod depmods modPath with
  | none => .error .enoent
  | some mv =>
    match importClassFrom env st mv with
    | .ok st' => .ok st'
    | .error e =>
      if e ≠ .enoent then .error e
      else
        match env.fetch mv with
        | .error e' => .error e'
        | .ok mv' => importClassFrom env st mv'

/-- The classfile-module loop of Module.ImportClasses: stop at the first
failing declared module. -/
def importMods (env : ClassfileEnv) (depmods : List DepmodInfo) :
    List GoString → Registry → Except ImportErr Registry
  | [], st => .ok st
  | cm :: cms, st =>
    match importMod env depmods st cm with
    | .ok st' => importMods env depmods cms st'
    | .error e => .error e

/-- Module.ImportClasses: built-ins (TestProject, SpxProject, the old-style
".gmx" binding), then the module's own declared projects, then the declared
classfile modules in order. -/
def ImportClasses (env : ClassfileEnv) (m : GModule) (st0 : Registry) :
    Except ImportErr Registry :=
  importMods env m.depmods m.classMods
    (m.optProjects.foldl importClass
      ((importClass (importClass st0 ClaimC1.TestProject) ClaimC1.SpxProject).set
        (goStr ".gmx") ClaimC1.SpxProject))

end Gopmod


namespace RegistryModel

open Modfile Gopmod ClaimC1

/-- The key/value writes performed by one importClass call, in order:
the project's own Ext first, then each work Ext. -/
def projBindings (c : Project) : List (GoString × Project) :=
  (c.Ext, c) :: c.Works.map (fun w => (w.Ext, c))

/-- Applying a sequence of map writes. -/
def applyBindings (st : Registry) (bs : List (GoString × Project)) : Registry :=
  bs.foldl (fun st b => st.set b.1 b.2) st

theorem importClass_eq (st : Registry) (c : Project) :
    importClass st c = applyBindings st (projBindings c) := by
  unfold importClass applyBindings projBindings
  rw [List.foldl_cons, List.foldl_map]

theorem applyBindings_append (st : Registry) (a b : List (GoString × Project)) :
    applyBindings st (a ++ b) = applyBindings (applyBindings st a) b :=
  List.foldl_append _ _ a b

theorem foldl_importClass_eq (ps : List Project) (st : Registry) :
    ps.foldl importClass st = applyBindings st (ps.flatMap projBindings) := by
  induction ps generalizing st with
  | nil => rfl
  | cons p ps ih =>
    rw [List.foldl_cons, ih, importClass_eq, List.flatMap_cons, applyBindings_append]

theorem applyBindings_eq_reverse_append (bs : List (GoString × Project)) :
    ∀ st : Registry, applyBindings st bs = bs.reverse ++ st := by
  induction bs with
  | nil => intro st; rfl
  | cons b bs ih =>
    intro st
    show applyBindings (Registry.set st b.1 b.2) bs = (b :: bs).reverse ++ st
    rw [ih, List.reverse_cons, List.append_assoc]
    rfl

/-- Looking up a key after a write sequence: the LAST write for that key
wins; with no write for it, the original map answers. -/
theorem find_applyBindings (st : Registry) (bs : List (GoString × Project))
    (k : GoString) :
    Registry.find (applyBindings st bs) k =
      match List.find? (fun b => b.1 = k) bs.reverse with
      | some b => some b.2
      | none => Registry.find st k := by
  rw [applyBindings_eq_reverse_append]
  unfold Registry.find
  rw [List.find?_append]
  cases List.find? (fun b => decide (b.1 = k)) bs.reverse <;> rfl

/-- The outcome of loading a dependency manifest in importClassFrom,
separated from the registration it performs: an error from the cache/load,
ErrNotClassFileMod when no project is declared, or the declared projects. -/
def loadOutcome (env : ClassfileEnv) (mv : GoModVersion) :
    Except ImportErr (List Project) :=
  match env.loadFrom mv with
  | .error e => .error e
  | .ok projs => if projs.length = 0 then .error .notClassFileMod else .ok projs

theorem importClassFrom_eq (env : ClassfileEnv) (st : Registry) (mv : GoModVersion) :
    importClassFrom env st mv =
      (loadOutcome env mv).map (fun ps => ps.foldl importClass st) := by
  unfold importClassFrom loadOutcome
  cases env.loadFrom mv with
  | error e => rfl
  | ok projs =>
    by_cases h : projs.length = 0
    · simp [h, Except.map]
    · simp [h, Except.map]

/-- The projects importMod would register, separated from the registration:
ENOENT for an unknown dependency, then the cache attempt, then on ENOENT
only the fetch-and-retry. -/
def importModProjs (env : ClassfileEnv) (depmods : List DepmodInfo)
    (cm : GoString) : Except ImportErr (List Project) :=
  match LookupDepMod depmods cm with
  | none => .error .enoent
  | some mv =>
    match loadOutcome env mv with
    | .ok ps => .ok ps
    | .error e =>
      if e ≠ .enoent then .error e
      else
        match env.fetch mv with
        | .error e' => .error e'
        | .ok mv' => loadOutcome env mv'

theorem importMod_eq (env : ClassfileEnv) (depmods : List DepmodInfo)
    (st : Registry) (cm : GoString) :
    importMod env depmods st cm =
      (importModProjs env depmods cm).map (fun ps => ps.foldl importClass st) := by
  unfold importMod importModProjs
  cases LookupDepMod depmods cm with
  | none => rfl
  | some mv =>
    simp only [importClassFrom_eq]
    cases loadOutcome env mv with
    | ok ps => rfl
    | error e =>
      show (if e ≠ ImportErr.enoent then Except.error e
            else match env.fetch mv with
                 | .error e' => Except.error e'
                 | .ok mv' =>
                   Except.map (fun ps => List.foldl importClass st ps)
                     (loadOutcome env mv')) =
          Except.map (fun ps => List.foldl importClass st ps)
            (if e ≠ ImportErr.enoent then Except.error e
             else match env.fetch mv with
                  | .error e' => Except.error e'
                  | .ok mv' => loadOutcome env mv')
      by_cases he : e = ImportErr.enoent
      · simp only [if_neg (not_not_intro he)]
        cases env.fetch mv with
        | error e' => rfl
        | ok mv' => rfl
      · simp only [if_pos he]
        rfl

/-- The projects the classfile-module loop would register overall, stopping
at the first failure. -/
def importModsProjs (env : ClassfileEnv) (depmods : List DepmodInfo) :
    List GoString → Except ImportErr (List Project)
  | [] => .ok []
  | cm :: cms =>
    match importModProjs env depmods cm with
    | .error e => .error e
    | .ok ps =>
      match importModsProjs env depmods cms with
      | .error e => .error e
      | .ok rest => .ok (ps ++ rest)

theorem importMods_eq (env : ClassfileEnv) (depmods : List DepmodInfo) :
    ∀ (cms : List GoString) (st : Registry),
      importMods env depmods cms st =
        (importModsProjs env depmods cms).map (fun ps => ps.foldl importClass st) := by
  intro cms
  induction cms with
  | nil => intro st; rfl
  | cons cm cms ih =>
    intro st
    simp only [importMods, importModsProjs, importMod_eq]
    cases importModProjs env depmods cm with
    | error e => rfl
    | ok ps =>
      show importMods env depmods cms (ps.foldl importClass st) =
        Except.map (fun ps => List.foldl importClass st ps)
          (match importModsProjs env depmods cms with
           | .error e => .error e
           | .ok rest => .ok (ps ++ rest))
      rw [ih]
      cases importModsProjs env depmods cms with
      | error e => rfl
      | ok rest =>
        show Except.ok (rest.foldl importClass (ps.foldl importClass st)) = _
        rw [← List.foldl_append]
        rfl

end RegistryModel

namespace ClaimC6

open Modfile Gopmod ClaimC1 RegistryModel

/-- The full registration sequence of Module.ImportClasses, in order:
built-in defaults (TestProject, SpxProject, the old-style ".gmx" binding),
the module's own declared projects, then the projects of the declared
classfile modules in declaration order. -/
def bindingSeq (m : GModule) (deps : List Project) : List (GoString × Project) :=
  projBindings TestProject ++ projBindings SpxProject ++
    [(goStr ".gmx", SpxProject)] ++
    m.optProjects.flatMap projBindings ++ deps.flatMap projBindings

/-- C6: when ImportClasses succeeds, the resulting registry answers every
extension with the LAST registration of that extension in the ordered
sequence built-ins → own projects → classfile-module projects (and falls
back to the initial map when no registration binds it): later registrations
silently overwrite earlier ones. -/
theorem ImportClasses_last_write_wins (env : ClassfileEnv) (m : GModule)
    (st0 reg : Registry) (deps : List Project)
    (hdeps : importModsProjs env m.depmods m.classMods = .ok deps)
    (h : ImportClasses env m st0 = .ok reg) :
    ∀ ext, Registry.find reg ext =
      match List.find? (fun b => b.1 = ext) (bindingSeq m deps).reverse with
      | some b => some b.2
      | none => Registry.find st0 ext := by
  intro ext
  unfold ImportClasses at h
  rw [importMods_eq, hdeps] at h
  simp only [Except.map, Except.ok.injEq] at h
  have e1 : importClass (importClass st0 TestProject) SpxProject =
      applyBindings st0 (projBindings TestProject ++ projBindings SpxProject) := by
    rw [importClass_eq, importClass_eq, applyBindings_append]
  have e2 : (importClass (importClass st0 TestProject) SpxProject).set
        (goStr ".gmx") SpxProject =
      applyBindings st0 (projBindings TestProject ++ projBindings SpxProject ++
        [(goStr ".gmx", SpxProject)]) := by
    rw [e1, applyBindings_append]
    rfl
  have e3 : m.optProjects.foldl importClass
        ((importClass (importClass st0 TestProject) SpxProject).set
          (goStr ".gmx") SpxProject) =
      applyBindings st0 (projBindings TestProject ++ projBindings SpxProject ++
        [(goStr ".gmx", SpxProject)] ++ m.optProjects.flatMap projBindings) := by
    rw [foldl_importClass_eq, e2]
    exact (applyBindings_append st0 _ _).symm
  have e4 : reg = applyBindings st0 (bindingSeq m deps) := by
    rw [← h, foldl_importClass_eq, e3]
    unfold bindingSeq
    exact (applyBindings_append st0 _ _).symm
  rw [e4, find_applyBindings]

/-- First classfile project binding ".spx" for the C6 witness. -/
def P1 : Project :=
  { Ext := goStr ".spx", Cls := goStr "Game1", Works := [],
    PkgPaths := [goStr "mod1/classfile"] }

/-- Second classfile project binding ".spx" for the C6 witness. -/
def P2 : Project :=
  { Ext := goStr ".spx", Cls := goStr "Game2", Works := [],
    PkgPaths := [goStr "mod2/classfile"] }

/-- Environment for the C6 witness: two cached classfile modules. -/
def env6 : ClassfileEnv :=
  { loadFrom := fun mv =>
      if mv.Path = goStr "mod1" then .ok [P1]
      else if mv.Path = goStr "mod2" then .ok [P2]
      else .error (.loadErr 0)
    fetch := fun _ => .error (.fetchErr 0) }

/-- Module for the C6 witness: imports mod1 then mod2, both binding ".spx". -/
def m6 : GModule :=
  { optProjects := []
    classMods := [goStr "mod1", goStr "mod2"]
    depmods := [⟨goStr "mod1", ⟨goStr "mod1", goStr "v1.0.0"⟩⟩,
                ⟨goStr "mod2", ⟨goStr "mod2", goStr "v1.0.0"⟩⟩] }

/-- The registry ImportClasses builds for the C6 witness module. -/
def reg6 : Registry := (ImportClasses env6 m6 Registry.empty).toOption.getD []

/-- Witness for C6 at a concrete input: with two imported classfile modules
both binding ".spx", the registry answers with the last registration in the
sequence (the second module's project). -/
theorem ImportClasses_last_write_wins_witness :
    Registry.find reg6 (goStr ".spx") =
      match List.find? (fun b => b.1 = goStr ".spx") (bindingSeq m6 [P1, P2]).reverse with
      | some b => some b.2
      | none => Registry.find Registry.empty (goStr ".spx") :=
  ImportClasses_last_write_wins env6 m6 Registry.empty reg6 [P1, P2]
    (by rfl) (by rfl) (goStr ".spx")

end ClaimC6

namespace ClaimC7

open Modfile Gopmod RegistryModel

/-- When a leading segment of the classfile-module list succeeds, the loop
continues on the rest from the registry extended with its projects. -/
theorem importMods_append_ok (env : ClassfileEnv) (depmods : List DepmodInfo) :
    ∀ (pre : List GoString) (ps : List Project),
      importModsProjs env depmods pre = .ok ps →
      ∀ (rest : List GoString) (st : Registry),
        importMods env depmods (pre ++ rest) st =
          importMods env depmods rest (ps.foldl importClass st) := by
  intro pre
  induction pre with
  | nil =>
    intro ps hps rest st
    have h : ([] : List Project) = ps := by
      injection hps
    rw [← h]
    rfl
  | cons cm pre ih =>
    intro ps hps rest st
    cases h1 : importModProjs env depmods cm with
    | error e =>
      rw [importModsProjs, h1] at hps
      cases hps
    | ok ps1 =>
      cases h2 : importModsProjs env depmods pre with
      | error e =>
        rw [importModsProjs, h1, h2] at hps
        cases hps
      | ok rest' =>
        rw [importModsProjs, h1, h2] at hps
        have hps' : ps1 ++ rest' = ps := by
          injection hps
        show (match importMod env depmods st cm with
              | .ok st' => importMods env depmods (pre ++ rest) st'
              | .error e => .error e) = _
        rw [importMod_eq, h1]
        show importMods env depmods (pre ++ rest) (ps1.foldl importClass st) = _
        rw [ih rest' h2, ← List.foldl_append, hps']

/-- C7: a failing declared classfile module halts the registry build with
that failure, whatever comes after it in the declaration list: a path that
is no known dependency fails with ENOENT, and a dependency whose manifest
declares zero projects fails with ErrNotClassFileMod (the load succeeded,
so no fetch retry happens). -/
theorem ImportClasses_halts (env : ClassfileEnv) (m : GModule) (st0 : Registry)
    (pre post : List GoString) (bad : GoString) (ps : List Project)
    (hcm : m.classMods = pre ++ bad :: post)
    (hpre : importModsProjs env m.depmods pre = .ok ps) :
    (LookupDepMod m.depmods bad = none →
        ImportClasses env m st0 = .error .enoent) ∧
    (∀ mv, LookupDepMod m.depmods bad = some mv →
        env.loadFrom mv = .ok [] →
        ImportClasses env m st0 = .error .notClassFileMod) := by
  have key : ∀ e : ImportErr, importModProjs env m.depmods bad = .error e →
      ImportClasses env m st0 = .error e := by
    intro e he
    unfold ImportClasses
    rw [hcm, importMods_append_ok env m.depmods pre ps hpre]
    show (match importMod env m.depmods (ps.foldl importClass _) bad with
          | .ok st' => importMods env m.depmods post st'
          | .error e => .error e) = _
    rw [importMod_eq, he]
    rfl
  constructor
  · intro hnone
    apply key
    unfold importModProjs
    rw [hnone]
  · intro mv hsome hload
    apply key
    unfold importModProjs
    rw [hsome]
    have hout : loadOutcome env mv = .error .notClassFileMod := by
      unfold loadOutcome
      rw [hload]
      rfl
    show (match loadOutcome env mv with
          | .ok ps => Except.ok ps
          | .error e =>
            if e ≠ ImportErr.enoent then Except.error e
            else
              match env.fetch mv with
              | .error e' => Except.error e'
              | .ok mv' => loadOutcome env mv') =
        Except.error ImportErr.notClassFileMod
    rw [hout]
    rfl

/-- Environment for the C7 witness: one cached dependency module whose
manifest declares no project. -/
def env7 : ClassfileEnv :=
  { loadFrom := fun mv =>
      if mv.Path = goStr "emptymod" then .ok [] else .error (.loadErr 0)
    fetch := fun _ => .error (.fetchErr 0) }

/-- Module for the C7 witness: its first declared classfile module is not
among the dependencies at all. -/
def m7 : GModule :=
  { optProjects := []
    classMods := [goStr "missing", goStr "emptymod"]
    depmods := [⟨goStr "emptymod", ⟨goStr "emptymod", goStr "v1.0.0"⟩⟩] }

/-- Witness for C7 at a concrete input: the unknown dependency halts the
whole registry build with ENOENT; the later declared module is never
reached. -/
theorem ImportClasses_halts_witness :
    ImportClasses env7 m7 Registry.empty = .error .enoent :=
  (ImportClasses_halts env7 m7 Registry.empty [] [goStr "emptymod"]
    (goStr "missing") [] (by rfl) (by rfl)).1 (by rfl)

end ClaimC7

namespace Gopmod

/-- The truncation of Module.PkgType before the dot test: keep only the
first '/'-delimited segment when the '/' occurs at a positive index
(Go: `pos := strings.Index(pkgPath, "/"); if pos > 0 ...`). -/
def pkgTypeTrunc (pkgPath : GoString) : GoString :=
  match goIndexChar pkgPath '/' with
  | some n => if 0 < n then pkgPath.take n else pkgPath
  | none => pkgPath

/-- Module.PkgType: empty → invalid; under the module path → module;
dot-leading → local; first segment containing a dot → extern; otherwise
standard. -/
def PkgTypeOf (modPath pkgPath : GoString) : Int :=
  if pkgPath = [] then PkgtInvalid
  else if isPkgInMod pkgPath modPath then PkgtModule
  else if pkgPath.head? = some '.' then PkgtLocal
  else if goContainsChar (pkgTypeTrunc pkgPath) '.' then PkgtExtern
  else PkgtStandard

/-- The fields of gopmod.Module consumed by Lookup. -/
structure LookupModule where
  modPath : GoString
  modRoot : GoString
  depmods : List DepmodInfo

/-- Module.Lookup: standard packages resolve under GOROOT (external), module
packages under the module root, external packages through lookupExternPkg;
the remaining package types (PkgtLocal, PkgtInvalid) reach log.Panicln,
modelled as none.  `fpJoin` stands for filepath.Join (external). -/
def Lookup (goroot : GoString) (fpJoin : GoString → GoString → GoString)
    (mcPath : GoModVersion → Except GoString GoString) (p : LookupModule)
    (pkgPath : GoString) : Option (Except LookupErr Package) :=
  if PkgTypeOf p.modPath pkgPath = PkgtStandard then
    some (.ok { PType := PkgtStandard, ModDir := goroot,
                Dir := fpJoin goroot pkgPath })
  else if PkgTypeOf p.modPath pkgPath = PkgtModule then
    some (.ok { PType := PkgtModule, ModPath := p.modPath, ModDir := p.modRoot,
                Dir := p.modRoot ++ pkgPath.drop p.modPath.length })
  else if PkgTypeOf p.modPath pkgPath = PkgtExtern then
    some (lookupExternPkg mcPath p.depmods pkgPath)
  else none

end Gopmod

namespace ClaimC10

open Gopmod

/-- PkgType takes exactly the five declared values. -/
theorem PkgTypeOf_cases (modPath pkgPath : GoString) :
    PkgTypeOf modPath pkgPath = PkgtStandard ∨
    PkgTypeOf modPath pkgPath = PkgtModule ∨
    PkgTypeOf modPath pkgPath = PkgtLocal ∨
    PkgTypeOf modPath pkgPath = PkgtExtern ∨
    PkgTypeOf modPath pkgPath = PkgtInvalid := by
  unfold PkgTypeOf
  split_ifs <;> simp

/-- C10: Module.Lookup reaches the panic branch — returning neither a
Package nor an error value — exactly when the package type is PkgtLocal or
PkgtInvalid (empty path or dot-leading path); standard, in-module and
external packages all return normally. -/
theorem Lookup_panics_iff (goroot : GoString)
    (fpJoin : GoString → GoString → GoString)
    (mcPath : GoModVersion → Except GoString GoString) (p : LookupModule)
    (pkgPath : GoString) :
    (Lookup goroot fpJoin mcPath p pkgPath = none ↔
      (PkgTypeOf p.modPath pkgPath = PkgtLocal ∨
       PkgTypeOf p.modPath pkgPath = PkgtInvalid)) ∧
    ((Lookup goroot fpJoin mcPath p pkgPath).isSome = true ↔
      (PkgTypeOf p.modPath pkgPath = PkgtStandard ∨
       PkgTypeOf p.modPath pkgPath = PkgtModule ∨
       PkgTypeOf p.modPath pkgPath = PkgtExtern)) := by
  have hcases := PkgTypeOf_cases p.modPath pkgPath
  unfold Lookup
  constructor
  · constructor
    · intro hnone
      split_ifs at hnone with h1 h2 h3
      rcases hcases with h | h | h | h | h
      · exact absurd h h1
      · exact absurd h h2
      · exact Or.inl h
      · exact absurd h h3
      · exact Or.inr h
    · intro h
      have h1 : PkgTypeOf p.modPath pkgPath ≠ PkgtStandard := by
        rcases h with h | h <;> rw [h] <;> decide
      have h2 : PkgTypeOf p.modPath pkgPath ≠ PkgtModule := by
        rcases h with h | h <;> rw [h] <;> decide
      have h3 : PkgTypeOf p.modPath pkgPath ≠ PkgtExtern := by
        rcases h with h | h <;> rw [h] <;> decide
      rw [if_neg h1, if_neg h2, if_neg h3]
  · constructor
    · intro hsome
      split_ifs at hsome with h1 h2 h3
      · exact Or.inl h1
      · exact Or.inr (Or.inl h2)
      · exact Or.inr (Or.inr h3)
      · cases hsome
    · intro h
      split_ifs with h1 h2 h3
      · rfl
      · rfl
      · rfl
      · rcases h with h | h | h
        · exact absurd h h1
        · exact absurd h h2
        · exact absurd h h3

end ClaimC10

namespace GopEdit

/-- A line of the generic gop.mod statement tree: its token list.  For a
line inside a parenthesized block, the verb is carried by the block, so the
line's tokens do not repeat it (Go: Line.InBlock). -/
structure SLine where
  tokens : List GoString
  deriving DecidableEq, Repr

/-- A statement: a single line, or a parenthesized line block. -/
inductive SExpr where
  | line (l : SLine)
  | block (verb : GoString) (lines : List SLine)
  deriving DecidableEq, Repr

/-- The directiveWeights map of gop.mod editing: module=1, gop=2,
project=3, class=4, import/register=0x81; absent verbs have no entry. -/
def directiveWeightsFind (verb : GoString) : Option Nat :=
  if verb = goStr "module" then some 1
  else if verb = goStr "gop" then some 2
  else if verb = goStr "import" then some 0x81
  else if verb = goStr "register" then some 0x81
  else if verb = goStr "project" then some 3
  else if verb = goStr "class" then some 4
  else none

/-- Go map indexing `directiveWeights[verb]` (missing key yields the zero
value, directiveInvalid = 0). -/
def directiveWeightsAt (verb : GoString) : Nat :=
  (directiveWeightsFind verb).getD 0

/-- getWeight: a line is weighed by its verb; a block by its verb when
registered, otherwise directiveLineBlock = 0x80. -/
def getWeight : SExpr → Nat
  | .line l => directiveWeightsAt (l.tokens.headD [])
  | .block verb _ => (directiveWeightsFind verb).getD 0x80

/-- The scan-and-insert loop of addLine: insert the new line before the
first statement whose weight is ≥ the new line's weight, else append; also
returns the insertion index (standing for the returned *Line pointer). -/
def addLineGo (w : Nat) (tokens : List GoString) :
    List SExpr → List SExpr × Nat
  | [] => ([SExpr.line ⟨tokens⟩], 0)
  | e :: es =>
    if w ≤ getWeight e then (SExpr.line ⟨tokens⟩ :: e :: es, 0)
    else (e :: (addLineGo w tokens es).1, (addLineGo w tokens es).2 + 1)

/-- addLine: weigh the new tokens by their verb, then insert. -/
def addLine (stx : List SExpr) (tokens : List GoString) : List SExpr × Nat :=
  addLineGo (directiveWeightsAt (tokens.headD [])) tokens stx

/-- A reference to a syntax line (standing for a *Line pointer): the
top-level statement index, plus the index within the block when the line
lives inside one (Go: Line.InBlock true). -/
structure LineRef where
  idx : Nat
  inner : Option Nat
  deriving DecidableEq, Repr

/-- updateLine: replace the referenced line's tokens in place; for a line
inside a block the verb token is dropped (Go: `if line.InBlock { tokens =
tokens[1:] }`). -/
def updateLine (stx : List SExpr) (ref : LineRef) (tokens : List GoString) :
    List SExpr :=
  match ref.inner with
  | none => stx.set ref.idx (.line ⟨tokens⟩)
  | some j =>
    match stx.get? ref.idx with
    | some (.block verb lines) =>
      stx.set ref.idx (.block verb (lines.set j ⟨tokens.drop 1⟩))
    | _ => stx

/-- The parsed gop.mod file as the editor sees it: the gop statement (its
version and the syntax line it aliases), the classfile-import module paths,
and the statement tree. -/
structure EFile where
  gop : Option (GoString × LineRef)
  imports : List GoString
  stx : List SExpr
  deriving DecidableEq, Repr

/-- The error of File.AddGopStmt for a malformed version string. -/
inductive EditErr where
  | invalidVersion
  deriving DecidableEq, Repr

/-- File.AddGopStmt: validate the version against GoVersionRE (external,
passed as `goVerRE`); insert a new gop line when absent, else update the
existing line in place. -/
def AddGopStmt (goVerRE : GoString → Bool) (f : EFile) (version : GoString) :
    EFile × Option EditErr :=
  if goVerRE version = true then
    match f.gop with
    | none =>
      let p := addLine f.stx [goStr "gop", version]
      ({ f with gop := some (version, ⟨p.2, none⟩), stx := p.1 }, none)
    | some (_, ref) =>
      ({ f with gop := some (version, ref),
                stx := updateLine f.stx ref [goStr "gop", version] }, none)
  else (f, some .invalidVersion)

/-- File.AddNewImport: add an import line (auto-quoting the path through
the external AutoQuote, passed as `aq`) and record the import. -/
def AddNewImport (aq : GoString → GoString) (f : EFile) (modPath : GoString) :
    EFile :=
  { f with stx := (addLine f.stx [goStr "import", aq modPath]).1,
           imports := f.imports ++ [modPath] }

/-- File.AddImport: no-op when the module path is already imported, else
AddNewImport. -/
def AddImport (aq : GoString → GoString) (f : EFile) (modPath : GoString) :
    EFile :=
  if f.imports.any (fun m => m = modPath) then f
  else AddNewImport aq f modPath

end GopEdit

namespace GopEdit

/-- addLine inserts the new line at the returned index, leaving everything
else in place. -/
theorem addLineGo_insert (w : Nat) (tokens : List GoString) :
    ∀ l : List SExpr,
      (addLineGo w tokens l).1 =
        l.take (addLineGo w tokens l).2 ++
          SExpr.line ⟨tokens⟩ :: l.drop (addLineGo w tokens l).2 := by
  intro l
  induction l with
  | nil => rfl
  | cons e es ih =>
    by_cases h : w ≤ getWeight e
    · simp only [addLineGo, if_pos h]
      rfl
    · simp only [addLineGo, if_neg h]
      show e :: (addLineGo w tokens es).1 =
        (e :: es).take ((addLineGo w tokens es).2 + 1) ++
          SExpr.line ⟨tokens⟩ :: (e :: es).drop ((addLineGo w tokens es).2 + 1)
      rw [List.take_succ_cons, List.drop_succ_cons, List.cons_append, ih]

/-- The insertion index never exceeds the list length. -/
theorem addLineGo_le_length (w : Nat) (tokens : List GoString) :
    ∀ l : List SExpr, (addLineGo w tokens l).2 ≤ l.length := by
  intro l
  induction l with
  | nil => exact Nat.le_refl 0
  | cons e es ih =>
    by_cases h : w ≤ getWeight e
    · simp only [addLineGo, if_pos h]
      exact Nat.zero_le _
    · simp only [addLineGo, if_neg h, List.length_cons]
      exact Nat.succ_le_succ ih

/-- Every statement before the insertion point weighs strictly less than
the new line. -/
theorem addLineGo_before (w : Nat) (tokens : List GoString) :
    ∀ (l : List SExpr) (j : Nat) (e : SExpr),
      j < (addLineGo w tokens l).2 → l.get? j = some e → getWeight e < w := by
  intro l
  induction l with
  | nil => intro j e hj _; simp [addLineGo] at hj
  | cons a es ih =>
    intro j e hj hget
    by_cases h : w ≤ getWeight a
    · simp [addLineGo, if_pos h] at hj
    · simp only [addLineGo, if_neg h] at hj
      cases j with
      | zero =>
        rw [List.get?_cons_zero] at hget
        injection hget with he
        subst he
        exact Nat.lt_of_not_le h
      | succ j =>
        rw [List.get?_cons_succ] at hget
        exact ih j e (Nat.lt_of_succ_lt_succ hj) hget

/-- The statement at the insertion point (when any) weighs at least the new
line: the new statement lands before the first equal-or-greater weight. -/
theorem addLineGo_at (w : Nat) (tokens : List GoString) :
    ∀ (l : List SExpr) (e : SExpr),
      l.get? (addLineGo w tokens l).2 = some e → w ≤ getWeight e := by
  intro l
  induction l with
  | nil => intro e hget; cases hget
  | cons a es ih =>
    intro e hget
    by_cases h : w ≤ getWeight a
    · simp only [addLineGo, if_pos h] at hget
      rw [List.get?_cons_zero] at hget
      injection hget with he
      subst he
      exact h
    · simp only [addLineGo, if_neg h] at hget
      rw [List.get?_cons_succ] at hget
      exact ih e hget

/-- Re-writing the inserted line with its own tokens changes nothing. -/
theorem addLineGo_set_self (w : Nat) (tokens : List GoString) :
    ∀ l : List SExpr,
      (addLineGo w tokens l).1.set (addLineGo w tokens l).2
          (SExpr.line ⟨tokens⟩) =
        (addLineGo w tokens l).1 := by
  intro l
  induction l with
  | nil => rfl
  | cons e es ih =>
    by_cases h : w ≤ getWeight e
    · simp only [addLineGo, if_pos h]
      rfl
    · simp only [addLineGo, if_neg h]
      show (e :: (addLineGo w tokens es).1).set ((addLineGo w tokens es).2 + 1)
          (SExpr.line ⟨tokens⟩) = _
      rw [List.set_cons_succ, ih]

/-- updateLine is idempotent: re-applying the same token write to the same
line reference gives the same tree. -/
theorem updateLine_idem (stx : List SExpr) (ref : LineRef)
    (tokens : List GoString) :
    updateLine (updateLine stx ref tokens) ref tokens =
      updateLine stx ref tokens := by
  unfold updateLine
  cases ref with
  | mk idx inner =>
    cases inner with
    | none =>
      exact List.set_set _ _ _ _
    | some j =>
      cases hget : stx.get? idx with
      | none =>
        simp only [hget]
      | some e =>
        cases e with
        | line l =>
          simp only [hget]
        | block verb lines =>
          simp only [hget]
          have hlt : idx < stx.length := by
            rcases List.get?_eq_some.1 hget with ⟨h, _⟩
            exact h
          have hget2 : (stx.set idx (SExpr.block verb (lines.set j ⟨tokens.drop 1⟩))).get? idx =
              some (SExpr.block verb (lines.set j ⟨tokens.drop 1⟩)) := by
            rw [List.get?_set_eq]
            · simp [hlt]
          simp only [hget2, List.set_set, List.set_set]

end GopEdit

namespace GopEdit

/-- addLine-level restatement of addLineGo_insert. -/
theorem addLine_insert (stx : List SExpr) (toks : List GoString) :
    (addLine stx toks).1 =
      stx.take (addLine stx toks).2 ++
        SExpr.line ⟨toks⟩ :: stx.drop (addLine stx toks).2 :=
  addLineGo_insert _ _ _

/-- addLine-level restatement of addLineGo_before. -/
theorem addLine_before (stx : List SExpr) (toks : List GoString) (j : Nat)
    (e : SExpr) (hj : j < (addLine stx toks).2) (hget : stx.get? j = some e) :
    getWeight e < directiveWeightsAt (toks.headD []) :=
  addLineGo_before _ _ _ _ _ hj hget

/-- addLine-level restatement of addLineGo_at. -/
theorem addLine_at (stx : List SExpr) (toks : List GoString) (e : SExpr)
    (hget : stx.get? (addLine stx toks).2 = some e) :
    directiveWeightsAt (toks.headD []) ≤ getWeight e :=
  addLineGo_at _ _ _ _ hget

/-- addLine-level restatement of addLineGo_le_length. -/
theorem addLine_le_length (stx : List SExpr) (toks : List GoString) :
    (addLine stx toks).2 ≤ stx.length :=
  addLineGo_le_length _ _ _

/-- addLine-level restatement of addLineGo_set_self. -/
theorem addLine_set_self (stx : List SExpr) (toks : List GoString) :
    (addLine stx toks).1.set (addLine stx toks).2 (SExpr.line ⟨toks⟩) =
      (addLine stx toks).1 :=
  addLineGo_set_self _ _ _

end GopEdit

namespace ClaimC8

open GopEdit

/-- The concrete manifest for the C8 counterexample: a gop line followed by
an existing import line for module "a". -/
def f8 : EFile :=
  { gop := some (goStr "1.1", ⟨0, none⟩)
    imports := [goStr "a"]
    stx := [SExpr.line ⟨[goStr "gop", goStr "1.1"]⟩,
            SExpr.line ⟨[goStr "import", goStr "a"]⟩] }

/-- C8 counterexample: AddImport "b" on f8 inserts the new import line
BEFORE the pre-existing import line for "a", which has the same weight —
the result is [gop, import b, import a], not the claimed placement after
statements of equal or lower weight, [gop, import a, import b]. -/
theorem AddImport_counterexample :
    (AddImport (fun s => s) f8 (goStr "b")).stx =
      [SExpr.line ⟨[goStr "gop", goStr "1.1"]⟩,
       SExpr.line ⟨[goStr "import", goStr "b"]⟩,
       SExpr.line ⟨[goStr "import", goStr "a"]⟩] ∧
    getWeight (SExpr.line ⟨[goStr "import", goStr "a"]⟩) =
      directiveWeightsAt (goStr "import") ∧
    (AddImport (fun s => s) f8 (goStr "b")).stx ≠
      [SExpr.line ⟨[goStr "gop", goStr "1.1"]⟩,
       SExpr.line ⟨[goStr "import", goStr "a"]⟩,
       SExpr.line ⟨[goStr "import", goStr "b"]⟩] := by
  refine ⟨by decide, by decide, by decide⟩

/-- C8 (amended): AddImport is a strict no-op when the module path is
already imported; otherwise it adds exactly one import statement, inserted
before the FIRST existing statement of equal or greater weight (equivalently
after the leading statements of strictly lower weight), leaving all existing
statements in order, and appends the path to the import list. -/
theorem AddImport_spec (aq : GoString → GoString) (f : EFile) (mp : GoString) :
    (f.imports.any (fun m => m = mp) = true → AddImport aq f mp = f) ∧
    (f.imports.any (fun m => m = mp) = false →
      (AddImport aq f mp).gop = f.gop ∧
      (AddImport aq f mp).imports = f.imports ++ [mp] ∧
      (AddImport aq f mp).stx =
        f.stx.take ((addLine f.stx [goStr "import", aq mp]).2) ++
          SExpr.line ⟨[goStr "import", aq mp]⟩ ::
            f.stx.drop ((addLine f.stx [goStr "import", aq mp]).2) ∧
      (∀ j e, j < (addLine f.stx [goStr "import", aq mp]).2 →
        f.stx.get? j = some e →
          getWeight e < directiveWeightsAt (goStr "import")) ∧
      (∀ e, f.stx.get? ((addLine f.stx [goStr "import", aq mp]).2) = some e →
        directiveWeightsAt (goStr "import") ≤ getWeight e) ∧
      (addLine f.stx [goStr "import", aq mp]).2 ≤ f.stx.length) := by
  constructor
  · intro h
    unfold AddImport
    rw [if_pos h]
  · intro h
    unfold AddImport
    rw [if_neg (by simp [h])]
    unfold AddNewImport
    refine ⟨rfl, rfl, addLine_insert f.stx _, ?_, ?_, addLine_le_length f.stx _⟩
    · intro j e hj hget
      exact addLine_before f.stx _ j e hj hget
    · intro e hget
      exact addLine_at f.stx _ e hget

/-- Witness for the amended C8 at a concrete input: module "b" is not yet
imported in f8, so one import statement is inserted at the computed index,
before the equal-weight existing import. -/
theorem AddImport_spec_witness :
    (AddImport (fun s => s) f8 (goStr "b")).gop = f8.gop ∧
    (AddImport (fun s => s) f8 (goStr "b")).imports =
      f8.imports ++ [goStr "b"] ∧
    (AddImport (fun s => s) f8 (goStr "b")).stx =
      f8.stx.take ((addLine f8.stx [goStr "import", (fun s => s) (goStr "b")]).2) ++
        SExpr.line ⟨[goStr "import", (fun s => s) (goStr "b")]⟩ ::
          f8.stx.drop ((addLine f8.stx [goStr "import", (fun s => s) (goStr "b")]).2) ∧
    (∀ j e, j < (addLine f8.stx [goStr "import", (fun s => s) (goStr "b")]).2 →
      f8.stx.get? j = some e →
        getWeight e < directiveWeightsAt (goStr "import")) ∧
    (∀ e, f8.stx.get? ((addLine f8.stx [goStr "import", (fun s => s) (goStr "b")]).2) = some e →
      directiveWeightsAt (goStr "import") ≤ getWeight e) ∧
    (addLine f8.stx [goStr "import", (fun s => s) (goStr "b")]).2 ≤ f8.stx.length :=
  (AddImport_spec (fun s => s) f8 (goStr "b")).2 (by decide)

end ClaimC8

namespace ClaimC9

open GopEdit

/-- C9: with a valid version string, AddGopStmt is idempotent: a second
call with the same version updates the existing gop line in place to the
same tokens, adding no statement and moving none, so the resulting file —
and hence its formatted output, a function of the statement tree — is
identical to the result of a single call. -/
theorem AddGopStmt_idempotent (goVerRE : GoString → Bool) (f : EFile)
    (v : GoString) (hv : goVerRE v = true) :
    AddGopStmt goVerRE (AddGopStmt goVerRE f v).1 v = AddGopStmt goVerRE f v := by
  cases hg : f.gop with
  | none =>
    have h1 : AddGopStmt goVerRE f v =
        ({ f with gop := some (v, ⟨(addLine f.stx [goStr "gop", v]).2, none⟩),
                  stx := (addLine f.stx [goStr "gop", v]).1 }, none) := by
      unfold AddGopStmt
      rw [if_pos hv, hg]
    rw [h1]
    have h2 : AddGopStmt goVerRE
        { f with gop := some (v, ⟨(addLine f.stx [goStr "gop", v]).2, none⟩),
                 stx := (addLine f.stx [goStr "gop", v]).1 } v =
        ({ f with gop := some (v, ⟨(addLine f.stx [goStr "gop", v]).2, none⟩),
                  stx := updateLine (addLine f.stx [goStr "gop", v]).1
                    ⟨(addLine f.stx [goStr "gop", v]).2, none⟩
                    [goStr "gop", v] }, none) := by
      unfold AddGopStmt
      rw [if_pos hv]
    rw [h2]
    have h3 : updateLine (addLine f.stx [goStr "gop", v]).1
        ⟨(addLine f.stx [goStr "gop", v]).2, none⟩ [goStr "gop", v] =
        (addLine f.stx [goStr "gop", v]).1 := by
      unfold updateLine
      exact addLine_set_self f.stx [goStr "gop", v]
    rw [h3]
  | some p =>
    have h1 : AddGopStmt goVerRE f v =
        ({ f with gop := some (v, p.2),
                  stx := updateLine f.stx p.2 [goStr "gop", v] }, none) := by
      unfold AddGopStmt
      rw [if_pos hv, hg]
    rw [h1]
    have h2 : AddGopStmt goVerRE
        { f with gop := some (v, p.2),
                 stx := updateLine f.stx p.2 [goStr "gop", v] } v =
        ({ f with gop := some (v, p.2),
                  stx := updateLine (updateLine f.stx p.2 [goStr "gop", v]) p.2
                    [goStr "gop", v] }, none) := by
      unfold AddGopStmt
      rw [if_pos hv]
    rw [h2, updateLine_idem]

/-- Concrete manifest for the C9 witness: a module line and no gop line. -/
def f9 : EFile :=
  { gop := none
    imports := []
    stx := [SExpr.line ⟨[goStr "module", goStr "m"]⟩] }

/-- Concrete stand-in for GoVersionRE in the C9 witness. -/
def verRE9 (s : GoString) : Bool := s = goStr "1.2"

/-- Witness for C9 at a concrete input: adding gop 1.2 twice equals adding
it once. -/
theorem AddGopStmt_idempotent_witness :
    AddGopStmt verRE9 (AddGopStmt verRE9 f9 (goStr "1.2")).1 (goStr "1.2") =
      AddGopStmt verRE9 f9 (goStr "1.2") :=
  AddGopStmt_idempotent verRE9 f9 (goStr "1.2") (by decide)

end ClaimC9


namespace Modfile

/-- Position of a line in the manifest (x/mod Position). -/
structure Position where
  Line : Nat
  LineRune : Nat
  Byte : Nat
  deriving DecidableEq, Repr

/-- isExt: an ext token starts with an asterisk, underscore or dot; in a
project context it may also start with "main" followed by underscore or
dot. -/
def isExt (s : GoString) (isProj : Bool) : Bool :=
  (decide (1 < s.length) &&
    (match s.head? with
     | some c => c = '*' || c = '_' || c = '.'
     | none => false)) ||
  (isProj && decide (4 < s.length) && decide (s.take 4 = goStr "main") &&
    (match s.get? 4 with
     | some c => c = '_' || c = '.'
     | none => false))

/-- getExt: strip a leading asterisk or a leading "main". -/
def getExt (s : GoString) : GoString :=
  if 1 < s.length ∧ s.head? = some '*' then s.drop 1
  else if 4 < s.length ∧ s.take 4 = goStr "main" then s.drop 4
  else s

/-- parseExt: unquote, validate the ext-token shape, and return the
canonical ext together with the original (full) form; failures are
InvalidExtError (here: none). -/
def parseExt (unquote : GoString → Option GoString) (s : GoString)
    (isProj : Bool) : Option (GoString × GoString) :=
  match parseString unquote s with
  | none => none
  | some t => if isExt t isProj then some (getExt t, t) else none

/-- isPkgPath: a package path is nonempty and starts with neither a dot
nor an underscore. -/
def isPkgPath (s : GoString) : Bool :=
  match s with
  | [] => false
  | c :: _ => !(c = '.') && !(c = '_')

/-- The distinct error sites of the directive parser. -/
inductive PErr where
  | repeatedXgo
  | xgoArgCount
  | xgoBadVersion
  | projectUsage
  | invalidExt
  | invalidSymbol
  | invalidPkgPath
  | invalidQuoted
  | classNoProject
  | unknownFlag
  | classUsage
  | importNoProject
  | importUsage
  | runnerNoProject
  | repeatedRunner
  | runnerUsage
  | unknownDirective
  deriving DecidableEq, Repr

/-- parsePkgPath: unquote then validate. -/
def parsePkgPath (unquote : GoString → Option GoString) (s : GoString) :
    Except PErr GoString :=
  match parseString unquote s with
  | none => .error .invalidQuoted
  | some t => if isPkgPath t then .ok t else .error .invalidPkgPath

/-- parsePkgPaths: parse each argument, stopping at the first failure
(within one statement). -/
def parsePkgPaths (unquote : GoString → Option GoString) :
    List GoString → Except PErr (List GoString)
  | [] => .ok []
  | a :: as =>
    match parsePkgPath unquote a with
    | .error e => .error e
    | .ok p =>
      match parsePkgPaths unquote as with
      | .error e => .error e
      | .ok ps => .ok (p :: ps)

/-- The parsed manifest under construction: the xgo version statement (at
most one) and the ordered project list; the current project is the last
one. -/
structure PFile where
  XGo : Option GoString
  Projects : List Project
  deriving DecidableEq, Repr

/-- File.proj: the current project (the most recently added one). -/
def PFile.proj (f : PFile) : Option Project := f.Projects.getLast?

/-- Mutating the current (last) project in place. -/
def modifyLast (g : Project → Project) : List Project → List Project
  | [] => []
  | [p] => [g p]
  | p :: ps => p :: modifyLast g ps

/-- File.addProj. -/
def addProj (f : PFile) (p : Project) : PFile :=
  { f with Projects := f.Projects ++ [p] }

/-- Appending a work class to the current project. -/
def appendWork (f : PFile) (w : Class) : PFile :=
  { f with Projects :=
      modifyLast (fun p => { p with Works := p.Works ++ [w] }) f.Projects }

/-- Appending an auto-import to the current project. -/
def appendImport (f : PFile) (im : Import) : PFile :=
  { f with Projects :=
      modifyLast (fun p => { p with Imports := p.Imports ++ [im] }) f.Projects }

/-- Setting the runner of the current project. -/
def setRunner (f : PFile) (r : Runner) : PFile :=
  { f with Projects :=
      modifyLast (fun p => { p with Runner := some r }) f.Projects }

/-- The flag loop of the class directive: leading dash arguments set
embed / the prefix; any other flag is a usage error. -/
def classFlags (pfx : GoString) (emb : Bool) :
    List GoString → Except PErr (GoString × Bool × List GoString)
  | [] => .ok (pfx, emb, [])
  | a :: rest =>
    if goStartsWith a (goStr "-") then
      if a.drop 1 = goStr "embed" then classFlags pfx true rest
      else if goStartsWith (a.drop 1) (goStr "prefix=") then
        classFlags ((a.drop 1).drop 7) emb rest
      else .error .unknownFlag
    else .ok (pfx, emb, a :: rest)

section ParseVerb

variable (unquote : GoString → Option GoString) (goVerRE : GoString → Bool)

/-- The project directive: either the ext form (ext token, class symbol,
package paths) or the bare aggregation form (package paths only). -/
def parseProjectVerb (f : PFile) (args : List GoString) :
    PFile × List PErr :=
  if args.length < 1 then (f, [.projectUsage])
  else if isExt (args.headD []) true then
    if args.length < 3 ∨ goContainsChar (args.getD 1 []) '/' then
      (f, [.projectUsage])
    else
      match parseExt unquote (args.headD []) true with
      | none => (f, [.invalidExt])
      | some (ext, fullExt) =>
        match parseSymbol unquote (args.getD 1 []) with
        | none => (f, [.invalidSymbol])
        | some cls =>
          match parsePkgPaths unquote (args.drop 2) with
          | .error e => (f, [e])
          | .ok pkgPaths =>
            (addProj f ⟨ext, fullExt, cls, [], pkgPaths, [], none⟩, [])
  else
    match parsePkgPaths unquote args with
    | .error e => (f, [e])
    | .ok pkgPaths =>
      (addProj f ⟨[], [], [], [], pkgPaths, [], none⟩, [])

/-- The class directive: needs a current project; flags, then work ext,
class symbol and optional prototype symbol. -/
def parseClassVerb (f : PFile) (args : List GoString) : PFile × List PErr :=
  match f.proj with
  | none => (f, [.classNoProject])
  | some _ =>
    match classFlags [] false args with
    | .error e => (f, [e])
    | .ok (pfx, emb, args) =>
      if args.length < 2 then (f, [.classUsage])
      else
        match parseExt unquote (args.headD []) false with
        | none => (f, [.invalidExt])
        | some (workExt, fullExt) =>
          match parseSymbol unquote (args.getD 1 []) with
          | none => (f, [.invalidSymbol])
          | some cls =>
            if 2 < args.length then
              match parseSymbol unquote (args.getD 2 []) with
              | none => (f, [.invalidSymbol])
              | some protoCls =>
                (appendWork f ⟨workExt, fullExt, cls, protoCls, pfx, emb⟩, [])
            else
              (appendWork f ⟨workExt, fullExt, cls, [], pfx, emb⟩, [])

/-- The import directive: needs a current project; one argument is a bare
package path, two are alias then package path. -/
def parseImportVerb (f : PFile) (args : List GoString) : PFile × List PErr :=
  match f.proj with
  | none => (f, [.importNoProject])
  | some _ =>
    match args with
    | [a] =>
      match parsePkgPath unquote a with
      | .error e => (f, [e])
      | .ok p => (appendImport f ⟨[], p⟩, [])
    | [a, b] =>
      match parseString unquote a with
      | none => (f, [.invalidQuoted])
      | some nm =>
        match parsePkgPath unquote b with
        | .error e => (f, [e])
        | .ok p => (appendImport f ⟨nm, p⟩, [])
    | _ => (f, [.importUsage])

/-- The runner directive: needs a current project, only one per project;
runner package path plus optional version. -/
def parseRunnerVerb (f : PFile) (args : List GoString) : PFile × List PErr :=
  match f.proj with
  | none => (f, [.runnerNoProject])
  | some proj =>
    if proj.Runner ≠ none then (f, [.repeatedRunner])
    else if args.length < 1 then (f, [.runnerUsage])
    else
      match parsePkgPath unquote (args.headD []) with
      | .error e => (f, [e])
      | .ok rp =>
        if 1 < args.length then
          match parseString unquote (args.getD 1 []) with
          | none => (f, [.invalidQuoted])
          | some rv => (setRunner f ⟨rp, rv⟩, [])
        else (setRunner f ⟨rp, []⟩, [])

/-- File.parseVerb: dispatch one statement on its verb; in lax mode,
unknown verbs are ignored silently. -/
def parseVerb (strict : Bool) (f : PFile) (verb : GoString)
    (args : List GoString) : PFile × List PErr :=
  if verb = goStr "xgo" ∨ verb = goStr "gop" then
    if f.XGo ≠ none then (f, [.repeatedXgo])
    else if args.length ≠ 1 then (f, [.xgoArgCount])
    else if goVerRE (args.headD []) = false then (f, [.xgoBadVersion])
    else ({ f with XGo := some (args.headD []) }, [])
  else if verb = goStr "project" then parseProjectVerb unquote f args
  else if verb = goStr "class" then parseClassVerb unquote f args
  else if verb = goStr "import" then parseImportVerb unquote f args
  else if verb = goStr "runner" then parseRunnerVerb unquote f args
  else if strict then (f, [.unknownDirective])
  else (f, [])

end ParseVerb

end Modfile

namespace Modfile

/-- A generic statement of the manifest tree (produced by the external
modfile.ParseLax tokenizer): a single line, with its start position, verb
and remaining tokens; or a parenthesized line block, whose verb covers the
inner lines (an inner line's tokens do not repeat the verb). -/
inductive Stmt where
  | line (start : Position) (verb : GoString) (args : List GoString)
  | block (verb : GoString) (lines : List (Position × List GoString))
  deriving DecidableEq, Repr

/-- An error as collected by File.parseVerb through wrapError1: the file
name, the originating line's start position, and the error itself. -/
structure PError where
  Filename : GoString
  Pos : Position
  Err : PErr
  deriving DecidableEq, Repr

/-- One parseVerb call, its errors tagged with the file name and the
line's start position (wrapError1). -/
def parseLineStep (unquote : GoString → Option GoString)
    (goVerRE : GoString → Bool) (strict : Bool) (name : GoString)
    (f : PFile) (pos : Position) (verb : GoString) (args : List GoString) :
    PFile × List PError :=
  ((parseVerb unquote goVerRE strict f verb args).1,
   (parseVerb unquote goVerRE strict f verb args).2.map
     (fun e => ⟨name, pos, e⟩))

/-- The inner loop of parseToFile over the lines of a LineBlock. -/
def parseBlockLines (unquote : GoString → Option GoString)
    (goVerRE : GoString → Bool) (strict : Bool) (name : GoString)
    (verb : GoString) :
    List (Position × List GoString) → PFile → PFile × List PError
  | [], f => (f, [])
  | l :: ls, f =>
    ((parseBlockLines unquote goVerRE strict name verb ls
        (parseLineStep unquote goVerRE strict name f l.1 verb l.2).1).1,
     (parseLineStep unquote goVerRE strict name f l.1 verb l.2).2 ++
       (parseBlockLines unquote goVerRE strict name verb ls
         (parseLineStep unquote goVerRE strict name f l.1 verb l.2).1).2)

/-- Parsing one statement: a line is one parseVerb call; a block is one
call per inner line, all under the block's verb. -/
def parseStmtStep (unquote : GoString → Option GoString)
    (goVerRE : GoString → Bool) (strict : Bool) (name : GoString)
    (f : PFile) : Stmt → PFile × List PError
  | .line pos verb args =>
    parseLineStep unquote goVerRE strict name f pos verb args
  | .block verb lines =>
    parseBlockLines unquote goVerRE strict name verb lines f

/-- The statement loop of parseToFile, accumulating errors in order. -/
def parseStmts (unquote : GoString → Option GoString)
    (goVerRE : GoString → Bool) (strict : Bool) (name : GoString) :
    List Stmt → PFile → PFile × List PError
  | [], f => (f, [])
  | s :: ss, f =>
    ((parseStmts unquote goVerRE strict name ss
        (parseStmtStep unquote goVerRE strict name f s).1).1,
     (parseStmtStep unquote goVerRE strict name f s).2 ++
       (parseStmts unquote goVerRE strict name ss
         (parseStmtStep unquote goVerRE strict name f s).1).2)

/-- The fresh parse state (`parsed = &File{Syntax: f.Syntax}`). -/
def initPFile : PFile := ⟨none, []⟩

/-- parseToFile: run every statement, then return no manifest at all when
any error was collected (len(errs) > 0), the manifest otherwise; the
collected error list rides along in both cases. -/
def parseToFile (unquote : GoString → Option GoString)
    (goVerRE : GoString → Bool) (strict : Bool) (name : GoString)
    (stmts : List Stmt) : Option PFile × List PError :=
  if 0 < (parseStmts unquote goVerRE strict name stmts initPFile).2.length then
    (none, (parseStmts unquote goVerRE strict name stmts initPFile).2)
  else
    (some (parseStmts unquote goVerRE strict name stmts initPFile).1,
     (parseStmts unquote goVerRE strict name stmts initPFile).2)

/-- The start positions of all lines of a statement list (block inner
lines included). -/
def stmtPositions : List Stmt → List Position
  | [] => []
  | .line pos _ _ :: ss => pos :: stmtPositions ss
  | .block _ lines :: ss => lines.map Prod.fst ++ stmtPositions ss

end Modfile

namespace ClaimC5

open Modfile

/-- The statement loop processes every statement: the run over an appended
list is the run over the first part followed by the run over the second
part from the intermediate state, errors concatenated in order (no error
short-circuits the loop). -/
theorem parseStmts_append (unquote : GoString → Option GoString)
    (goVerRE : GoString → Bool) (strict : Bool) (name : GoString) :
    ∀ (s1 s2 : List Stmt) (f : PFile),
      parseStmts unquote goVerRE strict name (s1 ++ s2) f =
        ((parseStmts unquote goVerRE strict name s2
            (parseStmts unquote goVerRE strict name s1 f).1).1,
         (parseStmts unquote goVerRE strict name s1 f).2 ++
           (parseStmts unquote goVerRE strict name s2
             (parseStmts unquote goVerRE strict name s1 f).1).2) := by
  intro s1
  induction s1 with
  | nil => intro s2 f; rfl
  | cons s ss ih =>
    intro s2 f
    show parseStmts unquote goVerRE strict name (s :: (ss ++ s2)) f = _
    rw [parseStmts, ih, parseStmts]
    rw [List.append_assoc]

/-- Positions of a cons decompose. -/
theorem stmtPositions_cons (s : Stmt) (ss : List Stmt) :
    stmtPositions (s :: ss) = stmtPositions [s] ++ stmtPositions ss := by
  cases s with
  | line pos verb args => rfl
  | block verb lines =>
    show List.map Prod.fst lines ++ stmtPositions ss =
      (List.map Prod.fst lines ++ stmtPositions []) ++ stmtPositions ss
    rw [List.append_assoc]
    rfl

/-- Every error of the block loop carries the file name and the start
position of one of the block's lines. -/
theorem parseBlockLines_pos (unquote : GoString → Option GoString)
    (goVerRE : GoString → Bool) (strict : Bool) (name verb : GoString) :
    ∀ (lines : List (Position × List GoString)) (f : PFile),
      ∀ e ∈ (parseBlockLines unquote goVerRE strict name verb lines f).2,
        e.Filename = name ∧ e.Pos ∈ lines.map Prod.fst := by
  intro lines
  induction lines with
  | nil => intro f e he; cases he
  | cons l ls ih =>
    intro f e he
    rw [parseBlockLines] at he
    rcases List.mem_append.1 he with hmem | hmem
    · unfold parseLineStep at hmem
      rcases List.mem_map.1 hmem with ⟨k, _, hk⟩
      subst hk
      exact ⟨rfl, List.mem_cons_self _ _⟩
    · rcases ih _ e hmem with ⟨hn, hp⟩
      exact ⟨hn, List.mem_cons_of_mem _ hp⟩

/-- Every error of one statement carries the file name and the start
position of one of that statement's lines. -/
theorem parseStmtStep_pos (unquote : GoString → Option GoString)
    (goVerRE : GoString → Bool) (strict : Bool) (name : GoString)
    (f : PFile) (s : Stmt) :
    ∀ e ∈ (parseStmtStep unquote goVerRE strict name f s).2,
      e.Filename = name ∧ e.Pos ∈ stmtPositions [s] := by
  intro e he
  cases s with
  | line pos verb args =>
    unfold parseStmtStep parseLineStep at he
    rcases List.mem_map.1 he with ⟨k, _, hk⟩
    subst hk
    exact ⟨rfl, List.mem_cons_self _ _⟩
  | block verb lines =>
    unfold parseStmtStep at he
    rcases parseBlockLines_pos unquote goVerRE strict name verb lines f e he
      with ⟨hn, hp⟩
    refine ⟨hn, ?_⟩
    show e.Pos ∈ List.map Prod.fst lines ++ stmtPositions []
    exact List.mem_append.2 (Or.inl hp)

/-- Every collected error carries the file name and the position of one of
the statements' lines. -/
theorem parseStmts_pos (unquote : GoString → Option GoString)
    (goVerRE : GoString → Bool) (strict : Bool) (name : GoString) :
    ∀ (ss : List Stmt) (f : PFile),
      ∀ e ∈ (parseStmts unquote goVerRE strict name ss f).2,
        e.Filename = name ∧ e.Pos ∈ stmtPositions ss := by
  intro ss
  induction ss with
  | nil => intro f e he; cases he
  | cons s ss ih =>
    intro f e he
    rw [parseStmts] at he
    rw [stmtPositions_cons]
    rcases List.mem_append.1 he with hmem | hmem
    · rcases parseStmtStep_pos unquote goVerRE strict name f s e hmem
        with ⟨hn, hp⟩
      exact ⟨hn, List.mem_append.2 (Or.inl hp)⟩
    · rcases ih _ e hmem with ⟨hn, hp⟩
      exact ⟨hn, List.mem_append.2 (Or.inr hp)⟩

/-- C5: parsing a manifest collects validation errors across ALL
statements — the error list of an appended statement list is the first
part's errors followed by the second part's (no early stop) — the parse
returns no manifest exactly when at least one error was collected, and
every collected error is tagged with the file name and the start position
of the line it came from. -/
theorem parseToFile_collects_all (unquote : GoString → Option GoString)
    (goVerRE : GoString → Bool) (strict : Bool) (name : GoString)
    (s1 s2 : List Stmt) :
    ((parseToFile unquote goVerRE strict name (s1 ++ s2)).1 = none ↔
      (parseToFile unquote goVerRE strict name (s1 ++ s2)).2 ≠ []) ∧
    (parseToFile unquote goVerRE strict name (s1 ++ s2)).2 =
      (parseStmts unquote goVerRE strict name s1 initPFile).2 ++
        (parseStmts unquote goVerRE strict name s2
          (parseStmts unquote goVerRE strict name s1 initPFile).1).2 ∧
    (∀ e ∈ (parseToFile unquote goVerRE strict name (s1 ++ s2)).2,
      e.Filename = name ∧ e.Pos ∈ stmtPositions (s1 ++ s2)) := by
  have herrs : (parseToFile unquote goVerRE strict name (s1 ++ s2)).2 =
      (parseStmts unquote goVerRE strict name (s1 ++ s2) initPFile).2 := by
    unfold parseToFile
    by_cases h : 0 <
        (parseStmts unquote goVerRE strict name (s1 ++ s2) initPFile).2.length
    · rw [if_pos h]
    · rw [if_neg h]
  refine ⟨?_, ?_, ?_⟩
  · unfold parseToFile
    by_cases h : 0 <
        (parseStmts unquote goVerRE strict name (s1 ++ s2) initPFile).2.length
    · rw [if_pos h]
      simp only [true_iff]
      intro hnil
      rw [hnil] at h
      exact absurd h (by simp)
    · rw [if_neg h]
      constructor
      · intro hc; cases hc
      · intro hne
        exact absurd (Nat.pos_of_ne_zero
          (fun hz => hne (List.eq_nil_of_length_eq_zero hz))) h
  · rw [herrs, parseStmts_append]
  · intro e he
    rw [herrs] at he
    exact parseStmts_pos unquote goVerRE strict name (s1 ++ s2) initPFile e he

end ClaimC5

namespace ClaimC5

open Modfile

/-- Concrete unquote stand-in for the C5 witness (no quoted tokens occur). -/
def uq5 : GoString → Option GoString := fun _ => none

/-- Concrete GoVersionRE stand-in for the C5 witness. -/
def vRE5 : GoString → Bool := fun s => s = goStr "1.1"

/-- First statement batch of the C5 witness: a class directive before any
project (an error). -/
def s51 : List Stmt :=
  [Stmt.line ⟨2, 1, 1⟩ (goStr "class") [goStr ".spx", goStr "Sprite"]]

/-- Second statement batch of the C5 witness: a malformed xgo version
(a second, independent error — still collected). -/
def s52 : List Stmt := [Stmt.line ⟨3, 1, 10⟩ (goStr "xgo") [goStr "bad"]]

/-- The second collected error of the C5 witness parse. -/
def err5 : PError := ⟨goStr "gox.mod", ⟨3, 1, 10⟩, .xgoBadVersion⟩

/-- Witness for C5 at a concrete input: both defects are collected (the
parse does not stop at the first), the manifest is withheld, and the
second error is tagged with its own line's position. -/
theorem parseToFile_collects_all_witness :
    ((parseToFile uq5 vRE5 true (goStr "gox.mod") (s51 ++ s52)).1 = none ↔
      (parseToFile uq5 vRE5 true (goStr "gox.mod") (s51 ++ s52)).2 ≠ []) ∧
    (parseToFile uq5 vRE5 true (goStr "gox.mod") (s51 ++ s52)).2 =
      (parseStmts uq5 vRE5 true (goStr "gox.mod") s51 initPFile).2 ++
        (parseStmts uq5 vRE5 true (goStr "gox.mod") s52
          (parseStmts uq5 vRE5 true (goStr "gox.mod") s51 initPFile).1).2 ∧
    (err5.Filename = goStr "gox.mod" ∧
      err5.Pos ∈ stmtPositions (s51 ++ s52)) :=
  ⟨(parseToFile_collects_all uq5 vRE5 true (goStr "gox.mod") s51 s52).1,
   (parseToFile_collects_all uq5 vRE5 true (goStr "gox.mod") s51 s52).2.1,
   (parseToFile_collects_all uq5 vRE5 true (goStr "gox.mod") s51 s52).2.2
     err5 (by decide)⟩

end ClaimC5
